import Mathlib

/-!
Verification development for the survey-analysis engine.

The embedding mirrors `src/lib/analysis.ts` (statistics, quadrant
classification, department aggregation, distribution) and the parser module
(frequency-table reconstruction, department-score-matrix extraction).

Modelling conventions:
* JavaScript numbers are modelled as exact rationals `ℚ`; the two places the
  source calls `Math.sqrt` (standard deviation, Pearson correlation) land in
  `ℝ` via `Real.sqrt`.
* `Math.round(x * 100) / 100` is modelled as `⌊x * 100 + 1/2⌋ / 100`
  (JavaScript `Math.round` rounds half-up).
* A `Record<string, number>` with absent keys is an association list
  `List (String × ℚ)`; a missing answer is an absent key.
* `Math.random()`-driven choices are modelled by an explicit parameter
  supplying the chosen index at each step, so theorems quantify over every
  possible outcome of the shuffle.
-/

/-- JavaScript `Math.round(q * 100) / 100` on rationals. -/
def round2 (q : ℚ) : ℚ := ((⌊q * 100 + 1/2⌋ : ℤ) : ℚ) / 100

/-- JavaScript `Math.round(x * 100) / 100` on reals. -/
noncomputable def round2R (x : ℝ) : ℝ := ((⌊x * 100 + 1/2⌋ : ℤ) : ℝ) / 100

/-- Insertion of an element into a list sorted by `le` (helper for `sortBy`). -/
def insertLe {α : Type} (le : α → α → Bool) (a : α) : List α → List α
  | [] => [a]
  | b :: l => if le a b then a :: b :: l else b :: insertLe le a l

/-- Stable insertion sort; models `Array.prototype.sort` with a total
comparator. -/
def sortBy {α : Type} (le : α → α → Bool) (l : List α) : List α :=
  l.foldr (insertLe le) []

/-- Numeric value of a digit run. -/
def digitsVal (cs : List Char) : ℕ :=
  cs.foldl (fun n c => 10 * n + (c.toNat - 48)) 0

/-- Modelled from the spec: the builtin `String.localeCompare(b, 'ja',
\x7b numeric: true \x7d)` (the repository only calls the browser builtin, whose
code is not in the repository). Digit runs compare numerically, digits order
before other characters, and other characters compare by code point. -/
def jaCmp : List Char → List Char → Ordering
  | [], [] => .eq
  | [], _ :: _ => .lt
  | _ :: _, [] => .gt
  | a :: as, b :: bs =>
    if a.isDigit && b.isDigit then
      let ra := (a :: as).takeWhile Char.isDigit
      let rb := (b :: bs).takeWhile Char.isDigit
      match compare (digitsVal ra) (digitsVal rb) with
      | .eq => jaCmp (as.dropWhile Char.isDigit) (bs.dropWhile Char.isDigit)
      | o => o
    else if a.isDigit then .lt
    else if b.isDigit then .gt
    else
      match compare a.val b.val with
      | .eq => jaCmp as bs
      | o => o
termination_by x y => x.length + y.length
decreasing_by
  · have ha := (List.dropWhile_sublist (l := as) Char.isDigit).length_le
    have hb := (List.dropWhile_sublist (l := bs) Char.isDigit).length_le
    simp only [List.length_cons]
    omega
  · simp only [List.length_cons]
    omega

/-- Modelled from the spec: locale-aware string comparison used by
`sortDepartments`. -/
def localeCompareJa (x y : String) : Ordering := jaCmp x.toList y.toList

/-- Source `sortDepartments`: sort with the ja-locale numeric comparator. -/
def sortDepartments (departments : List String) : List String :=
  sortBy (fun a b => !(localeCompareJa a b == Ordering.gt)) departments

/-- Source `calcMean`: mean of a list, `0` for the empty list. -/
def calcMean (values : List ℚ) : ℚ :=
  if values.length = 0 then 0 else values.sum / values.length

/-- Source `calcMedian`: middle element of the sorted list (odd length) or the
average of the two middle elements (even length), `0` for the empty list. -/
def calcMedian (values : List ℚ) : ℚ :=
  if values.length = 0 then 0
  else
    let sorted := sortBy (fun a b => decide (a ≤ b)) values
    let mid := sorted.length / 2
    if sorted.length % 2 ≠ 0 then sorted.getD mid 0
    else (sorted.getD (mid - 1) 0 + sorted.getD mid 0) / 2

/-- Source `calcStdDev`: population standard deviation, `0` when `N ≤ 1`. -/
noncomputable def calcStdDev (values : List ℚ) : ℝ :=
  if values.length ≤ 1 then 0
  else
    let mean := calcMean values
    let variance : ℚ :=
      ((values.map (fun v => (v - mean) ^ 2)).sum) / (values.length : ℚ)
    Real.sqrt ((variance : ℚ) : ℝ)

/-- Population variance written independently from the spec's words ("divide
sum-of-squared-deviations by N"), for comparison with `calcStdDev`. -/
def popVariance (values : List ℚ) : ℚ :=
  ((values.map (fun v => (v - calcMean values) ^ 2)).sum) / (values.length : ℚ)

/-- Source `calcCorrelation`: Pearson correlation coefficient. The source
computes `denom = Math.sqrt(denomX * denomY)` and returns `0` when
`denom === 0`; the loop indexes both arrays by `i < x.length`, modelled by
`x.zip y` (identical whenever the lengths agree, as at every call site). -/
noncomputable def calcCorrelation (x y : List ℚ) : ℝ :=
  if x.length ≤ 1 then 0
  else
    let meanX : ℚ := calcMean x
    let meanY : ℚ := calcMean y
    let pairs : List (ℚ × ℚ) := x.zip y
    let numerator : ℚ := (pairs.map (fun p => (p.1 - meanX) * (p.2 - meanY))).sum
    let denomX : ℚ := (pairs.map (fun p => (p.1 - meanX) ^ 2)).sum
    let denomY : ℚ := (pairs.map (fun p => (p.2 - meanY) ^ 2)).sum
    let denom : ℝ := Real.sqrt (((denomX * denomY : ℚ) : ℝ))
    if denom = 0 then 0 else ((numerator : ℚ) : ℝ) / denom

/-- Record type from `types.ts` (fields relevant to the engine). -/
structure SurveyResponse : Type where
  id : String
  projectId : String
  respondentId : String
  department : String
  answers : List (String × ℚ)
deriving DecidableEq

/-- Record type from `types.ts`. -/
structure Question : Type where
  id : String
  projectId : String
  key : String
  label : String
  categoryId : String
  scaleMin : ℚ
  scaleMax : ℚ
deriving DecidableEq

/-- Record type from `types.ts`. -/
structure AppSettings : Type where
  issueThreshold : ℚ
  excellentThreshold : ℚ
  scaleMin : ℚ
  scaleMax : ℚ
  apiKey : String
deriving DecidableEq

/-- Record type from `types.ts`; `stdDev` and `importance` are real-valued
because their computation goes through `Math.sqrt`. -/
structure AnalysisResult : Type where
  questionId : String
  questionKey : String
  questionLabel : String
  categoryId : String
  mean : ℚ
  median : ℚ
  stdDev : ℝ
  lowRatio : ℚ
  highRatio : ℚ
  importance : ℝ
  priority : String
  quadrant : String
  extractionType : String

/-- Record type from `types.ts`. -/
structure DepartmentAnalysis : Type where
  department : String
  questionKey : String
  mean : ℚ
  diffFromOverall : ℚ
deriving DecidableEq

/-- Source `calcOverallScores`: per respondent, the mean of the available
answers across all question keys, `0` when no question was answered. -/
def calcOverallScores (responses : List SurveyResponse)
    (questionKeys : List String) : List ℚ :=
  responses.map (fun r =>
    let scores := questionKeys.filterMap (fun k => r.answers.lookup k)
    if 0 < scores.length then calcMean scores else 0)

/-- Source `getQuadrant` (string-literal union type in the source). -/
noncomputable def getQuadrant (mean : ℚ) (importance : ℝ)
    (meanThreshold : ℚ) (importanceThreshold : ℝ) : String :=
  if importanceThreshold ≤ importance ∧ mean < meanThreshold then "improve"
  else if importanceThreshold ≤ importance ∧ meanThreshold ≤ mean then "maintain"
  else if importance < importanceThreshold ∧ mean < meanThreshold then "monitor"
  else "excess"

/-- Source `getPriority`. -/
def getPriority (quadrant : String) (mean : ℚ) (issueThreshold : ℚ) : String :=
  if quadrant = "improve" then "high"
  else if quadrant = "monitor" ∧ mean ≤ issueThreshold then "medium"
  else if quadrant = "maintain" then "low"
  else "low"

/-- Body of the `questions.map` callback inside source `runAnalysis`. -/
noncomputable def analyzeQuestion (responses : List SurveyResponse)
    (overallScores : List ℚ) (settings : AppSettings)
    (question : Question) : AnalysisResult :=
  let values := responses.filterMap (fun r => r.answers.lookup question.key)
  let mean := calcMean values
  let median := calcMedian values
  let stdDev := calcStdDev values
  let lowRatio : ℚ :=
    if 0 < values.length
    then ((values.filter (fun v => v ≤ 2)).length : ℚ) / values.length else 0
  let highRatio : ℚ :=
    if 0 < values.length
    then ((values.filter (fun v => 4 ≤ v)).length : ℚ) / values.length else 0
  let questionScores := responses.map (fun r => (r.answers.lookup question.key).getD 0)
  let importance := |calcCorrelation questionScores overallScores|
  let meanThreshold := (settings.scaleMin + settings.scaleMax) / 2
  let quadrant := getQuadrant mean importance meanThreshold (1/2)
  let priority := getPriority quadrant mean settings.issueThreshold
  let extractionType :=
    if mean ≤ settings.issueThreshold then "issue"
    else if settings.excellentThreshold ≤ mean then "excellent"
    else "neutral"
  { questionId := question.id, questionKey := question.key,
    questionLabel := question.label, categoryId := question.categoryId,
    mean := round2 mean, median := median, stdDev := round2R stdDev,
    lowRatio := round2 lowRatio, highRatio := round2 highRatio,
    importance := round2R importance, priority := priority,
    quadrant := quadrant, extractionType := extractionType }

/-- Source `runAnalysis`. -/
noncomputable def runAnalysis (responses : List SurveyResponse)
    (questions : List Question) (settings : AppSettings) : List AnalysisResult :=
  if responses.length = 0 ∨ questions.length = 0 then []
  else
    let questionKeys := questions.map (fun q => q.key)
    let overallScores := calcOverallScores responses questionKeys
    questions.map (analyzeQuestion responses overallScores settings)

/-- First-occurrence deduplication; models `[...new Set(xs)]`. -/
def jsSetList : List String → List String
  | [] => []
  | d :: rest => d :: jsSetList (rest.filter (fun x => x ≠ d))
termination_by l => l.length
decreasing_by
  have := List.length_filter_le (fun x => x ≠ d) rest
  simp only [List.length_cons]
  omega

/-- Source `runDepartmentAnalysis`. The JavaScript `filter(Boolean)` drops the
empty department string; the nested `for` loops with `push` are the
`flatMap`/`map` below. -/
def runDepartmentAnalysis (responses : List SurveyResponse)
    (questions : List Question) (overallResults : List AnalysisResult) :
    List DepartmentAnalysis :=
  let departments :=
    sortDepartments (jsSetList ((responses.map (fun r => r.department)).filter
      (fun d => d ≠ "")))
  departments.flatMap (fun dept =>
    let deptResponses := responses.filter (fun r => r.department = dept)
    questions.map (fun question =>
      let values := deptResponses.filterMap (fun r => r.answers.lookup question.key)
      let mean := calcMean values
      let overall := overallResults.find? (fun r => r.questionKey = question.key)
      let diffFromOverall :=
        match overall with
        | some o => round2 (mean - o.mean)
        | none => 0
      { department := dept, questionKey := question.key,
        mean := round2 mean, diffFromOverall := diffFromOverall }))

/-- Increment the bucket whose value equals `v`, if one exists; models
`counts.set(v, (counts.get(v) || 0) + 1)` guarded by `counts.has(v)`. -/
def bumpBucket (l : List (ℤ × ℕ)) (v : ℚ) : List (ℤ × ℕ) :=
  if l.any (fun p => ((p.1 : ℚ) = v : Bool)) then
    l.map (fun p => if (p.1 : ℚ) = v then (p.1, p.2 + 1) else p)
  else l

/-- Source `getDistribution`. The `for (let i = scaleMin; i <= scaleMax; i++)`
initialisation loop is modelled on integer bounds (the engine is configured
with integer scale bounds). -/
def getDistribution (responses : List SurveyResponse) (questionKey : String)
    (scaleMin scaleMax : ℤ) : List (ℤ × ℕ) :=
  let init := (List.range (scaleMax + 1 - scaleMin).toNat).map
    (fun k : ℕ => ((scaleMin + (k : ℤ) : ℤ), 0))
  responses.foldl (fun acc r =>
    match r.answers.lookup questionKey with
    | some v => bumpBucket acc v
    | none => acc) init

/-- Character-list trim; models JavaScript `String.prototype.trim` (the core
`String.trim` is opaque to kernel reduction, so the model works on the
character list). -/
def trimChars (cs : List Char) : List Char :=
  ((cs.dropWhile Char.isWhitespace).reverse.dropWhile Char.isWhitespace).reverse

/-- Trimmed string. -/
def trimStr (s : String) : String := String.mk (trimChars s.data)

/-- Lower-cased string (models JavaScript `toLowerCase` for the ASCII range;
non-ASCII characters are unchanged). -/
def toLowerStr (s : String) : String := String.mk (s.data.map Char.toLower)

/-- Infix test on character lists. -/
def isInfixCL : List Char → List Char → Bool
  | p, [] => p.isEmpty
  | p, c :: t => p.isPrefixOf (c :: t) || isInfixCL p t

/-- Substring containment; models regular-expression substring tests. -/
def containsStr (s pat : String) : Bool := isInfixCL pat.data s.data

/-- Split a character list on a separator character; models `splitOn`. -/
def splitOnChar (sep : Char) (cs : List Char) : List (List Char) :=
  cs.foldr (fun x acc =>
    match acc with
    | [] => [[x]]
    | a :: rest => if x = sep then [] :: a :: rest else (x :: a) :: rest) [[]]

/-- Digit-run parse helper: the numeric value of a digit list, `none` when the
list is empty or holds a non-digit. -/
def digitsToNatOpt (cs : List Char) : Option ℕ :=
  if cs.isEmpty then none
  else if cs.all Char.isDigit then some (digitsVal cs) else none

/-- Models the JavaScript `Number(string)` conversion on the inputs in scope:
whitespace-trimmed; the empty string is `0`; an optional sign followed by a
decimal literal (`"12"`, `"1.5"`, `"1."`, `".5"`); anything else is `NaN`,
modelled as `none`. (Exponent and hexadecimal forms do not occur in the
spreadsheet headers and cells this engine inspects.) -/
def parseNum (s : String) : Option ℚ :=
  let t := trimChars s.data
  if t.isEmpty then some 0
  else
    let sign : ℚ := if t.headD ' ' = '-' then -1 else 1
    let u := if t.headD ' ' = '-' ∨ t.headD ' ' = '+' then t.tail else t
    match splitOnChar '.' u with
    | [ip] => (digitsToNatOpt ip).map (fun n => sign * (n : ℚ))
    | [ip, fp] =>
      if ip.isEmpty ∧ fp.isEmpty then none
      else if ip.all Char.isDigit ∧ fp.all Char.isDigit then
        some (sign * ((digitsVal ip : ℚ) + (digitsVal fp : ℚ) / ((10 : ℚ) ^ fp.length)))
      else none
    | _ => none

/-- Spreadsheet cell: JavaScript `string | number`. -/
inductive Cell : Type where
  | str : String → Cell
  | num : ℚ → Cell
deriving DecidableEq

/-- Parsed spreadsheet row: `Record<string, string | number>` with absent keys
for missing cells. -/
abbrev Row : Type := List (String × Cell)

/-- JavaScript `Number(row[h])`: a number cell is itself, a string cell is
parsed, a missing cell (`undefined`) is `NaN` (`none`). -/
def toNum : Option Cell → Option ℚ
  | some (Cell.num q) => some q
  | some (Cell.str s) => parseNum s
  | none => none

/-- Decimal rendering of a rational for string interpolation of a JavaScript
number; exact for integers (the only values interpolated in scope), with a
`num/den` fallback for non-integers. -/
def ratToStr (q : ℚ) : String :=
  if q.den = 1 then toString q.num
  else toString q.num ++ "/" ++ toString q.den

/-- JavaScript `String(cell || '')`: falsy values (`undefined`, `0`, `''`)
become the empty string. -/
def cellTextOrEmpty : Option Cell → String
  | some (Cell.str s) => s
  | some (Cell.num q) => if q = 0 then "" else ratToStr q
  | none => ""

/-- JavaScript `Map.prototype.set` / object key assignment: replace in place
when the key is present, append otherwise. -/
def mapSet {κ ν : Type} [DecidableEq κ] (m : List (κ × ν)) (k : κ) (v : ν) :
    List (κ × ν) :=
  if m.any (fun p => p.1 = k) then
    m.map (fun p => if p.1 = k then (k, v) else p)
  else m ++ [(k, v)]

/-- Score-column detection of `tryConvertFrequencyTable`: headers whose text is
an integer in `[1, 10]`, collected in a `Map` keyed by score. -/
def scoreHeadersOf (headers : List String) : List (ℚ × String) :=
  headers.foldl (fun m h =>
    match parseNum h with
    | some q => if q.den = 1 ∧ 1 ≤ q ∧ q ≤ 10 then mapSet m q h else m
    | none => m) []

/-- Question-label column detection: the first header with a string cell longer
than 5 characters in some data row. -/
def textColumnOf (headers : List String) (dataRows : List Row) : Option String :=
  headers.find? (fun h => dataRows.any (fun row =>
    match row.lookup h with
    | some (Cell.str s) => 5 < s.length
    | _ => false))

/-- Number-column detection: the first header outside the label and score
columns with a positive numeric value in some data row. -/
def numberColumnOf (headers : List String) (scoreHeaders : List (ℚ × String))
    (textColumn : String) (dataRows : List Row) : Option String :=
  let nonDataCols := textColumn :: scoreHeaders.map (fun p => p.2)
  headers.find? (fun h => !(nonDataCols.contains h) && dataRows.any (fun row =>
    match toNum (row.lookup h) with
    | some v => 0 < v
    | none => false))

/-- Weighted-average column detection: header matching the pattern
`点|平均|average|avg|mean` case-insensitively. -/
def avgColumnOf (headers : List String) : Option String :=
  headers.find? (fun h =>
    let s := toLowerStr h
    containsStr s "点" || containsStr s "平均" || containsStr s "average" ||
      containsStr s "avg" || containsStr s "mean")

/-- Per-question record of the frequency-table scan (interface `QuestionFreq`
in the source). -/
structure QuestionFreq : Type where
  number : ℚ
  text : String
  counts : List (ℚ × ℚ)
  total : ℚ
  weightedAvg : Option ℚ
deriving DecidableEq

/-- Loop body of the frequency-table question scan: skip rows whose label is
shorter than 2 characters or whose counts sum to 0; `Number(cell) || 0` is `0`
for `NaN`. -/
def freqStep (scoreHeaders : List (ℚ × String)) (textColumn : String)
    (numberColumn : Option String) (avgColumn : Option String)
    (questions : List QuestionFreq) (row : Row) : List QuestionFreq :=
  let text := trimStr (cellTextOrEmpty (row.lookup textColumn))
  if text = "" ∨ text.length < 2 then questions
  else
    let counts := scoreHeaders.map (fun sh => (sh.1, (toNum (row.lookup sh.2)).getD 0))
    let total := (counts.map (fun p => p.2)).sum
    if total = 0 then questions
    else
      let qNum : ℚ :=
        match numberColumn with
        | some nc =>
          match toNum (row.lookup nc) with
          | some v => if v = 0 then (questions.length + 1 : ℚ) else v
          | none => (questions.length + 1 : ℚ)
        | none => (questions.length + 1 : ℚ)
      let wAvg : Option ℚ :=
        match avgColumn with
        | some ac =>
          match toNum (row.lookup ac) with
          | some v => if v = 0 then none else some v
          | none => none
        | none => none
      questions ++ [{ number := qNum, text := text, counts := counts,
                      total := total, weightedAvg := wAvg }]

/-- The question list produced by the frequency-table scan. -/
def freqQuestionsOf (scoreHeaders : List (ℚ × String)) (textColumn : String)
    (numberColumn : Option String) (avgColumn : Option String)
    (dataRows : List Row) : List QuestionFreq :=
  dataRows.foldl (freqStep scoreHeaders textColumn numberColumn avgColumn) []

/-- Key of a detected question: the template string `Q${number}_${text}`. -/
def freqKey (q : QuestionFreq) : String := "Q" ++ ratToStr q.number ++ "_" ++ q.text

/-- JavaScript `Math.max(...totals)` over the (non-empty) question list. -/
def jsMaxTotal : List QuestionFreq → ℚ
  | [] => 0
  | q :: qs => qs.foldl (fun m q2 => max m q2.total) q.total

/-- Expansion of a per-score count map into the score multiset: the loop
`for (let i = 0; i < count; i++) arr.push(score)` runs `⌈count⌉⁺` times. -/
def expandCounts (counts : List (ℚ × ℚ)) : List ℚ :=
  counts.flatMap (fun p => List.replicate (Int.ceil p.2).toNat p.1)

/-- Score array of one question before shuffling: scores then `null` padding up
to the row count (`while (arr.length < maxTotal) arr.push(null)`). -/
def paddedArray (q : QuestionFreq) (numRows : ℕ) : List (Option ℚ) :=
  let base := (expandCounts q.counts).map some
  base ++ List.replicate (numRows - base.length) none

/-- In-place swap of two positions, as on a JavaScript array. -/
def listSwap {α : Type} (l : List α) (i j : ℕ) : List α :=
  match l[i]?, l[j]? with
  | some a, some b => (l.set i b).set j a
  | _, _ => l

/-- Fisher–Yates loop: for `i` from `l.length - 1` down to `1`, swap position
`i` with a chosen position `j ≤ i`. The unseeded `Math.floor(Math.random() *
(i + 1))` is modelled by `rand i % (i + 1)`, which ranges over every possible
outcome as `rand` varies. -/
def fyLoop {α : Type} (rand : ℕ → ℕ) : List α → ℕ → List α
  | l, 0 => l
  | l, Nat.succ k => fyLoop rand (listSwap l (k + 1) (rand (k + 1) % (k + 2))) k

/-- Fisher–Yates shuffle of a list. -/
def fisherYates {α : Type} (rand : ℕ → ℕ) (l : List α) : List α :=
  fyLoop rand l (l.length - 1)

/-- The shuffled score arrays, one per question; `rand qIdx` supplies the
random choices of question `qIdx`'s shuffle. -/
def shuffledArraysOf (questions : List QuestionFreq) (numRows : ℕ)
    (rand : ℕ → ℕ → ℕ) : List (List (Option ℚ)) :=
  questions.enum.map (fun p => fisherYates (rand p.1) (paddedArray p.2 numRows))

/-- Pseudo-respondent id: `String(i + 1).padStart(3, '0')`. -/
def padId (n : ℕ) : String :=
  let s := Nat.repr n
  String.mk (List.replicate (3 - s.length) '0' ++ s.data)

/-- One pseudo-respondent row: the id cell, then for each question its
shuffled score at index `i` when present (`null` entries leave the key
absent). -/
def buildRow (questionKeys : List String) (arrays : List (List (Option ℚ)))
    (i : ℕ) : Row :=
  (questionKeys.zip arrays).foldl (fun row p =>
    match p.2.getD i none with
    | some score => mapSet row p.1 (Cell.num score)
    | none => row) [("回答者ID", Cell.str (padId (i + 1)))]

/-- All pseudo-respondent rows. -/
def pseudoRowsOf (questionKeys : List String) (arrays : List (List (Option ℚ)))
    (numRows : ℕ) : List Row :=
  (List.range numRows).map (buildRow questionKeys arrays)

/-- Normalized table structure from `types.ts`. -/
structure ParsedSurveyData : Type where
  headers : List String
  respondentIdColumn : String
  departmentColumn : String
  questionColumns : List String
  rows : List Row
deriving DecidableEq

/-- Source `tryConvertFrequencyTable`: detect a frequency-distribution table
and reconstruct pseudo-individual responses; `none` when the shape does not
match. `rand` models the unseeded `Math.random()` stream (see `fyLoop`). -/
def tryConvertFrequencyTable (headers : List String) (rows : List Row)
    (rand : ℕ → ℕ → ℕ) : Option ParsedSurveyData :=
  if rows.length < 3 then none
  else
    let scoreHeaderMap := scoreHeadersOf headers
    if scoreHeaderMap.length < 3 then none
    else
      let firstRow := rows.headD []
      let textInScoreCols := (scoreHeaderMap.map (fun p => p.2)).filter (fun h =>
        match firstRow.lookup h with
        | some (Cell.str s) => 1 < s.length
        | _ => false)
      if (textInScoreCols.length : ℚ) < (scoreHeaderMap.length : ℚ) / 2 then none
      else
        let dataRows := rows.drop 1
        match textColumnOf headers dataRows with
        | none => none
        | some textColumn =>
          let numberColumn := numberColumnOf headers scoreHeaderMap textColumn dataRows
          let avgColumn := avgColumnOf headers
          let questions := freqQuestionsOf scoreHeaderMap textColumn numberColumn avgColumn dataRows
          if questions.length = 0 then none
          else
            let maxTotal := jsMaxTotal questions
            let questionKeys := questions.map freqKey
            let numRows := (Int.ceil maxTotal).toNat
            let arrays := shuffledArraysOf questions numRows rand
            some { headers := "回答者ID" :: questionKeys,
                   respondentIdColumn := "回答者ID",
                   departmentColumn := "",
                   questionColumns := questionKeys,
                   rows := pseudoRowsOf questionKeys arrays numRows }

/-- The `CATEGORY_KEYWORDS` table from `types.ts` (insertion order of
`Object.entries`). -/
def CATEGORY_KEYWORDS : List (String × List String) :=
  [("cat-1", ["職場", "環境", "オフィス", "設備", "働く場所", "勤務"]),
   ("cat-2", ["人間関係", "上司", "同僚", "チーム", "コミュニケーション", "関係"]),
   ("cat-3", ["給与", "報酬", "待遇", "賞与", "ボーナス", "福利厚生", "手当"]),
   ("cat-4", ["成長", "キャリア", "研修", "教育", "スキル", "昇進", "機会"]),
   ("cat-5", ["仕事", "業務", "やりがい", "裁量", "負荷", "残業", "ワークライフ"]),
   ("cat-6", ["経営", "組織", "ビジョン", "戦略", "方針", "理念", "会社"])]

/-- Source `classifyQuestion`: first category whose keyword list has a
(case-insensitive) substring match, else `cat-other`. -/
def classifyQuestion (questionLabel : String) : String :=
  let label := toLowerStr questionLabel
  match CATEGORY_KEYWORDS.find? (fun p =>
    p.2.any (fun kw => containsStr label (toLowerStr kw))) with
  | some p => p.1
  | none => "cat-other"

/-- The `SKIP_COL_PATTERNS` denylist: the anchored case-insensitive regex
`^(番号|No\.?|#|質問|...)$` is modelled as membership of the trimmed,
lower-cased header in the expanded alternative list. -/
def SKIP_COL_LIST : List String :=
  ["番号", "no", "no.", "#", "質問", "そう思う", "少しそう思う", "どちらでもない",
   "あまりそう思わない", "そう思わない", "無回答", "総数", "点", "平均", "average",
   "avg", "mean", "count", "total", "回答", "id"]

/-- Header matches the non-department denylist. -/
def skipColMatches (h : String) : Bool :=
  SKIP_COL_LIST.contains (toLowerStr (trimStr h))

/-- Record type from `types.ts`. -/
structure DepartmentScoreQuestion : Type where
  number : ℚ
  label : String
  categoryId : String
  scores : List (String × ℚ)
deriving DecidableEq

/-- Record type from `types.ts`. -/
structure DepartmentScoreData : Type where
  questions : List DepartmentScoreQuestion
  departments : List String
  overallDepartment : String
deriving DecidableEq

/-- Question-label column of the department matrix: first header with a string
cell longer than 5 characters in some row. -/
def deptTextColOf (headers : List String) (rows : List Row) : Option String :=
  headers.find? (fun h => rows.any (fun r =>
    match r.lookup h with
    | some (Cell.str s) => 5 < s.length
    | _ => false))

/-- Number column of the department matrix: first header (other than the label
column) matching `番号|No|#` case-insensitively. -/
def deptNumColOf (headers : List String) (textCol : String) : Option String :=
  headers.find? (fun h =>
    decide (h ≠ textCol) &&
      (containsStr (toLowerStr h) "番号" || containsStr (toLowerStr h) "no" ||
        containsStr (toLowerStr h) "#"))

/-- Department/score columns: not the label or number column, not on the
denylist, with positive numeric values in at least 30% of rows, all within
`[1, 5.5]`. -/
def deptColumnsOf (headers : List String) (rows : List Row) (textCol : String)
    (numCol : Option String) : List String :=
  headers.filter (fun h =>
    if h = textCol then false
    else if numCol = some h then false
    else if skipColMatches h then false
    else
      let numericVals := (rows.filterMap (fun r => toNum (r.lookup h))).filter
        (fun v => decide (0 < v))
      decide ((rows.length : ℚ) * (3/10) ≤ (numericVals.length : ℚ)) &&
        numericVals.all (fun v => decide (1 ≤ v) && decide (v ≤ 11/2)))

/-- Overall column: first department column matching
`部門計|全体|合計|total`, or the empty string. -/
def overallDeptOf (deptColumns : List String) : String :=
  (deptColumns.find? (fun h =>
    let s := toLowerStr h
    containsStr s "部門計" || containsStr s "全体" || containsStr s "合計" ||
      containsStr s "total")).getD ""

/-- Question rows of the department matrix: rows whose trimmed label text is
longer than 2 characters, each with its positive scores rounded to 2
decimals. -/
def deptQuestionsOf (rows : List Row) (textCol : String) (numCol : Option String)
    (deptColumns : List String) : List DepartmentScoreQuestion :=
  ((rows.filter (fun row =>
      2 < (trimStr (cellTextOrEmpty (row.lookup textCol))).length)).enum).map
    (fun p =>
      let idx := p.1
      let row := p.2
      let label := trimStr (cellTextOrEmpty (row.lookup textCol))
      let number : ℚ :=
        match numCol with
        | some nc =>
          match toNum (row.lookup nc) with
          | some v => if v = 0 then (idx + 1 : ℚ) else v
          | none => (idx + 1 : ℚ)
        | none => (idx + 1 : ℚ)
      let scores := deptColumns.filterMap (fun dept =>
        match toNum (row.lookup dept) with
        | some v => if 0 < v then some (dept, round2 v) else none
        | none => none)
      { number := number, label := label, categoryId := classifyQuestion label,
        scores := scores })

/-- Source `extractDepartmentScores`: builds a `DepartmentScoreData` or throws
(`Except.error`) with a specific message when a precondition fails. -/
def extractDepartmentScores (rows : List Row) : Except String DepartmentScoreData :=
  if rows.length = 0 then Except.error "データが空です"
  else
    let headers := (rows.headD []).map (fun p => p.1)
    match deptTextColOf headers rows with
    | none => Except.error "質問テキスト列が見つかりません"
    | some textCol =>
      let numCol := deptNumColOf headers textCol
      let deptColumns := deptColumnsOf headers rows textCol numCol
      if deptColumns.length = 0 then Except.error "部署別スコア列が見つかりません"
      else
        let overallDept := overallDeptOf deptColumns
        let questions := deptQuestionsOf rows textCol numCol deptColumns
        if questions.length = 0 then Except.error "設問データが見つかりません"
        else Except.ok { questions := questions,
                         departments := sortDepartments deptColumns,
                         overallDepartment := overallDept }

/-- Sample question used by concrete witness instances. -/
def q1Sample : Question :=
  { id := "qid1", projectId := "p", key := "q1", label := "仕事のやりがい",
    categoryId := "cat-5", scaleMin := 1, scaleMax := 5 }

/-- Sample settings used by concrete witness instances (the defaults from
`types.ts`). -/
def stSample : AppSettings :=
  { issueThreshold := 3, excellentThreshold := 4, scaleMin := 1, scaleMax := 5,
    apiKey := "" }

/-- Sample respondent with an empty department string. -/
def respEmptyDept : SurveyResponse :=
  { id := "r1", projectId := "p", respondentId := "001", department := "",
    answers := [("q1", 3)] }

/-- Sample respondent with a named department. -/
def respSales : SurveyResponse :=
  { id := "r2", projectId := "p", respondentId := "002", department := "営業部",
    answers := [("q1", 4)] }

/-- C10: if the responses list is empty or the questions list is empty,
`runAnalysis` returns the empty array, for every settings value. -/
theorem c10_runAnalysis_empty_input (responses : List SurveyResponse)
    (questions : List Question) (settings : AppSettings)
    (h : responses = [] ∨ questions = []) :
    runAnalysis responses questions settings = [] := by
  rcases h with h | h <;> simp [runAnalysis, h]

/-- Witness for C10 at a concrete input. -/
theorem c10_runAnalysis_empty_input_witness :
    runAnalysis [] [q1Sample] stSample = [] :=
  c10_runAnalysis_empty_input [] [q1Sample] stSample (Or.inl rfl)

/-- C5: `calcStdDev` is the square root of the population variance
(sum of squared deviations over `N`, not `N - 1`), is never negative (no
`NaN`/division error exists: the function is total on all lists), and is `0`
for the empty list and every one-element list. -/
theorem c5_stdDev_population (values : List ℚ) (x : ℚ) :
    calcStdDev values = Real.sqrt ((popVariance values : ℚ) : ℝ)
    ∧ 0 ≤ calcStdDev values
    ∧ calcStdDev [] = 0
    ∧ calcStdDev [x] = 0 := by
  refine ⟨?_, ?_, by simp [calcStdDev], by simp [calcStdDev]⟩
  · by_cases h : values.length ≤ 1
    · rw [calcStdDev, if_pos h]
      match values, h with
      | [], _ => simp [popVariance]
      | [v], _ =>
        simp [popVariance, calcMean]
    · rw [calcStdDev, if_neg h, popVariance]
  · unfold calcStdDev
    split_ifs
    · exact le_refl 0
    · exact Real.sqrt_nonneg _

/-- C2: with `meanThreshold = (scaleMin + scaleMax) / 2` and
`importanceThreshold = 0.5`, quadrant classification is total and
deterministic: each `(mean, importance)` pair maps to exactly the quadrant
characterised below, and priority is `high` for `improve`, `medium` for
`monitor` at or below the issue threshold, and `low` in every other case. -/
theorem c2_quadrant_priority (mean : ℚ) (importance : ℝ) (st : AppSettings)
    (m : ℚ) :
    (getQuadrant mean importance ((st.scaleMin + st.scaleMax) / 2) (1/2) = "improve"
      ↔ (1/2 : ℝ) ≤ importance ∧ mean < (st.scaleMin + st.scaleMax) / 2)
    ∧ (getQuadrant mean importance ((st.scaleMin + st.scaleMax) / 2) (1/2) = "maintain"
      ↔ (1/2 : ℝ) ≤ importance ∧ (st.scaleMin + st.scaleMax) / 2 ≤ mean)
    ∧ (getQuadrant mean importance ((st.scaleMin + st.scaleMax) / 2) (1/2) = "monitor"
      ↔ importance < (1/2 : ℝ) ∧ mean < (st.scaleMin + st.scaleMax) / 2)
    ∧ (getQuadrant mean importance ((st.scaleMin + st.scaleMax) / 2) (1/2) = "excess"
      ↔ importance < (1/2 : ℝ) ∧ (st.scaleMin + st.scaleMax) / 2 ≤ mean)
    ∧ getPriority "improve" m st.issueThreshold = "high"
    ∧ (getPriority "monitor" m st.issueThreshold = "medium" ↔ m ≤ st.issueThreshold)
    ∧ (getPriority "monitor" m st.issueThreshold = "low" ↔ st.issueThreshold < m)
    ∧ getPriority "maintain" m st.issueThreshold = "low"
    ∧ getPriority "excess" m st.issueThreshold = "low" := by
  have himp : ¬ ((1/2 : ℝ) ≤ importance) → importance < (1/2 : ℝ) := fun h => lt_of_not_le h
  constructor
  · unfold getQuadrant
    split_ifs with h1 h2 h3 <;> simp_all
  constructor
  · unfold getQuadrant
    split_ifs with h1 h2 h3 <;> simp_all
  constructor
  · unfold getQuadrant
    split_ifs with h1 h2 h3 <;> simp_all
  constructor
  · unfold getQuadrant
    split_ifs with h1 h2 h3
    · constructor
      · intro habs; exact absurd habs (by decide)
      · rintro ⟨ha, _⟩; exact absurd h1.1 (not_le.mpr ha)
    · constructor
      · intro habs; exact absurd habs (by decide)
      · rintro ⟨ha, _⟩; exact absurd h2.1 (not_le.mpr ha)
    · constructor
      · intro habs; exact absurd habs (by decide)
      · rintro ⟨_, hb⟩; exact absurd h3.2 (not_lt.mpr hb)
    · have ha : importance < 1/2 := by
        by_contra hc
        have hle := le_of_not_lt hc
        rcases lt_or_le mean ((st.scaleMin + st.scaleMax) / 2) with hm | hm
        · exact h1 ⟨hle, hm⟩
        · exact h2 ⟨hle, hm⟩
      have hb : (st.scaleMin + st.scaleMax) / 2 ≤ mean := by
        by_contra hc
        exact h3 ⟨ha, not_le.mp hc⟩
      simp only [true_iff, eq_self_iff_true]
      exact ⟨ha, hb⟩
  constructor
  · simp [getPriority]
  constructor
  · unfold getPriority
    split_ifs with h1 h2 h3 <;> simp_all
  constructor
  · unfold getPriority
    split_ifs with h1 h2 h3 <;> simp_all
  constructor
  · simp [getPriority]
  · simp [getPriority]

/-- C7: `extractDepartmentScores` fails with the specific message of the first
failing precondition (empty row set, no question-label column, no
department/score column, zero valid question rows) and otherwise returns a
`DepartmentScoreData`; `Except` returns no partial result alongside an
error. -/
theorem c7_extract_error_cases (rows : List Row) :
    (rows = [] → extractDepartmentScores rows = Except.error "データが空です")
    ∧ (rows ≠ [] →
        deptTextColOf ((rows.headD []).map (fun p => p.1)) rows = none →
        extractDepartmentScores rows = Except.error "質問テキスト列が見つかりません")
    ∧ (∀ textCol, rows ≠ [] →
        deptTextColOf ((rows.headD []).map (fun p => p.1)) rows = some textCol →
        deptColumnsOf ((rows.headD []).map (fun p => p.1)) rows textCol
          (deptNumColOf ((rows.headD []).map (fun p => p.1)) textCol) = [] →
        extractDepartmentScores rows = Except.error "部署別スコア列が見つかりません")
    ∧ (∀ textCol, rows ≠ [] →
        deptTextColOf ((rows.headD []).map (fun p => p.1)) rows = some textCol →
        deptColumnsOf ((rows.headD []).map (fun p => p.1)) rows textCol
          (deptNumColOf ((rows.headD []).map (fun p => p.1)) textCol) ≠ [] →
        deptQuestionsOf rows textCol
          (deptNumColOf ((rows.headD []).map (fun p => p.1)) textCol)
          (deptColumnsOf ((rows.headD []).map (fun p => p.1)) rows textCol
            (deptNumColOf ((rows.headD []).map (fun p => p.1)) textCol)) = [] →
        extractDepartmentScores rows = Except.error "設問データが見つかりません")
    ∧ (∀ textCol, rows ≠ [] →
        deptTextColOf ((rows.headD []).map (fun p => p.1)) rows = some textCol →
        deptColumnsOf ((rows.headD []).map (fun p => p.1)) rows textCol
          (deptNumColOf ((rows.headD []).map (fun p => p.1)) textCol) ≠ [] →
        deptQuestionsOf rows textCol
          (deptNumColOf ((rows.headD []).map (fun p => p.1)) textCol)
          (deptColumnsOf ((rows.headD []).map (fun p => p.1)) rows textCol
            (deptNumColOf ((rows.headD []).map (fun p => p.1)) textCol)) ≠ [] →
        ∃ d : DepartmentScoreData, extractDepartmentScores rows = Except.ok d) := by
  refine ⟨?_, ?_, ?_, ?_, ?_⟩
  · intro h; subst h; rfl
  · intro hne hnone
    simp only [extractDepartmentScores]
    rw [if_neg (by simpa using hne), hnone]
  · intro textCol hne hsome hcols
    simp only [extractDepartmentScores]
    rw [if_neg (by simpa using hne), hsome]
    simp only []
    rw [if_pos (by rw [hcols]; rfl)]
  · intro textCol hne hsome hcols hq
    simp only [extractDepartmentScores]
    rw [if_neg (by simpa using hne), hsome]
    simp only []
    rw [if_neg (fun h => hcols (List.length_eq_zero.mp h)), if_pos (by rw [hq]; rfl)]
  · intro textCol hne hsome hcols hq
    simp only [extractDepartmentScores]
    rw [if_neg (by simpa using hne), hsome]
    simp only []
    rw [if_neg (fun h => hcols (List.length_eq_zero.mp h)),
      if_neg (fun h => hq (List.length_eq_zero.mp h))]
    exact ⟨_, rfl⟩

/-- Witness for C7 at the concrete empty input. -/
theorem c7_extract_error_cases_witness :
    extractDepartmentScores [] = Except.error "データが空です" :=
  (c7_extract_error_cases []).1 rfl

/-- Inserting with `insertLe` is a permutation of consing. -/
theorem insertLe_perm {α : Type} (le : α → α → Bool) (a : α) (l : List α) :
    (insertLe le a l).Perm (a :: l) := by
  induction l with
  | nil => simp [insertLe]
  | cons b t ih =>
    rw [insertLe]
    split_ifs
    · exact List.Perm.refl _
    · exact (ih.cons b).trans (List.Perm.swap a b t)

/-- Sorting with `sortBy` permutes the input. -/
theorem sortBy_perm {α : Type} (le : α → α → Bool) (l : List α) :
    (sortBy le l).Perm l := by
  induction l with
  | nil => exact List.Perm.refl _
  | cons a t ih =>
    have : sortBy le (a :: t) = insertLe le a (sortBy le t) := rfl
    rw [this]
    exact (insertLe_perm le a (sortBy le t)).trans (ih.cons a)

/-- Membership in `jsSetList` agrees with membership in the input. -/
theorem mem_jsSetList : ∀ (l : List String) (d : String),
    d ∈ jsSetList l ↔ d ∈ l := by
  intro l
  induction l using jsSetList.induct with
  | case1 => intro d; simp [jsSetList]
  | case2 a rest ih =>
    intro d
    rw [jsSetList]
    simp only [List.mem_cons, ih]
    by_cases h : d = a
    · simp [h]
    · simp [h, List.mem_filter]

/-- C3 counterexample: with one respondent whose department is the empty
string and one in a named department, `runDepartmentAnalysis` emits no group
for the empty string — the department list of the output is just the named
department, so the empty string does not form its own group. -/
theorem c3_counterexample :
    (runDepartmentAnalysis [respEmptyDept, respSales] [q1Sample] []).map
      (fun e => e.department) = ["営業部"] := by
  simp [runDepartmentAnalysis, respEmptyDept, respSales, q1Sample,
    sortDepartments, jsSetList, sortBy, insertLe]

/-- C3 amended: in `runDepartmentAnalysis` the empty department string is
dropped (`filter(Boolean)`), so respondents with an empty department are
excluded from department analysis; every respondent with a non-empty
department still has its group in the output (when there is at least one
question). -/
theorem c3_amended_empty_department_dropped (responses : List SurveyResponse)
    (questions : List Question) (overallResults : List AnalysisResult) :
    (∀ e ∈ runDepartmentAnalysis responses questions overallResults,
      e.department ≠ "")
    ∧ (∀ r ∈ responses, r.department ≠ "" → questions ≠ [] →
        ∃ e ∈ runDepartmentAnalysis responses questions overallResults,
          e.department = r.department) := by
  constructor
  · intro e he
    rw [runDepartmentAnalysis] at he
    simp only [List.mem_flatMap, List.mem_map] at he
    obtain ⟨dept, hdept, q, _, hq⟩ := he
    have hmem := (sortBy_perm _ _).mem_iff.mp hdept
    rw [mem_jsSetList] at hmem
    have := (List.mem_filter.mp hmem).2
    subst hq
    simpa using this
  · intro r hr hne hq
    obtain ⟨q, qs⟩ := List.exists_cons_of_ne_nil hq
    obtain ⟨tail, htail⟩ := qs
    have hdept : r.department ∈
        sortDepartments (jsSetList ((responses.map (fun x => x.department)).filter
          (fun d => d ≠ ""))) := by
      rw [sortDepartments]
      rw [(sortBy_perm _ _).mem_iff, mem_jsSetList, List.mem_filter]
      refine ⟨List.mem_map_of_mem _ hr, by simpa using hne⟩
    rw [runDepartmentAnalysis]
    simp only [List.mem_flatMap, List.mem_map]
    refine ⟨_, ⟨r.department, hdept, ⟨q, by simp [htail], rfl⟩⟩, rfl⟩

/-- The guarded `Map` increment of `getDistribution`, as a pointwise map. -/
theorem bumpBucket_eq (l : List (ℤ × ℕ)) (v : ℚ) :
    bumpBucket l v
      = l.map (fun p => (p.1, p.2 + if ((p.1 : ℚ) = v) then 1 else 0)) := by
  unfold bumpBucket
  split_ifs with h
  · have hfun : (fun p : ℤ × ℕ => if (p.1 : ℚ) = v then (p.1, p.2 + 1) else p)
        = fun p : ℤ × ℕ => (p.1, p.2 + if ((p.1 : ℚ) = v) then 1 else 0) := by
      funext p
      split_ifs with hc <;> simp
    rw [hfun]
  · have hall : ∀ p ∈ l, ¬((p.1 : ℚ) = v) := by
      intro p hp hc
      exact h (List.any_eq_true.mpr ⟨p, hp, by simpa using hc⟩)
    nth_rewrite 1 [show l = l.map id from (List.map_id l).symm]
    apply List.map_congr_left
    intro p hp
    simp [hall p hp]

/-- Folding the responses over any bucket list adds, per bucket, the number of
responses answering exactly that bucket's value. -/
theorem getDistribution_foldl (questionKey : String) :
    ∀ (responses : List SurveyResponse) (init : List (ℤ × ℕ)),
    responses.foldl (fun acc r =>
      match r.answers.lookup questionKey with
      | some v => bumpBucket acc v
      | none => acc) init
    = init.map (fun p => (p.1, p.2 + responses.countP
        (fun r => r.answers.lookup questionKey == some ((p.1 : ℚ))))) := by
  intro responses
  induction responses with
  | nil => intro init; simp
  | cons r rs ih =>
    intro init
    rw [List.foldl_cons, ih]
    cases hl : r.answers.lookup questionKey with
    | none =>
      simp only [hl]
      apply List.map_congr_left
      intro p hp
      simp [List.countP_cons, hl]
    | some v =>
      simp only [hl]
      rw [bumpBucket_eq, List.map_map]
      apply List.map_congr_left
      intro p hp
      simp only [Function.comp, List.countP_cons, hl]
      by_cases hc : (p.1 : ℚ) = v
      · simp [hc]
        omega
      · have hc2 : ¬(v = (p.1 : ℚ)) := fun hh => hc hh.symm
        simp [hc, hc2]

/-- Sum of a pointwise-added map splits. -/
theorem sum_map_add {α : Type} (l : List α) (f g : α → ℕ) :
    (l.map (fun x => f x + g x)).sum = (l.map f).sum + (l.map g).sum := by
  induction l with
  | nil => simp
  | cons a t ih =>
    simp only [List.map_cons, List.sum_cons, ih]
    omega

/-- Indicator sum: a rational equals exactly one integer cast in the bucket
range, namely when it is an integer with numerator in range. -/
theorem indicator_sum (v : ℚ) (scaleMin : ℤ) (n : ℕ) :
    ((List.range n).map (fun k : ℕ =>
      if v = (((scaleMin + (k : ℤ)) : ℤ) : ℚ) then 1 else 0)).sum
    = if v.den = 1 ∧ scaleMin ≤ v.num ∧ v.num < scaleMin + n then 1 else 0 := by
  induction n with
  | zero =>
    simp only [List.range_zero, List.map_nil, List.sum_nil]
    rw [if_neg]
    rintro ⟨_, h1, h2⟩
    omega
  | succ m ih =>
    rw [List.range_succ, List.map_append, List.sum_append, ih]
    simp only [List.map_cons, List.map_nil, List.sum_cons, List.sum_nil]
    by_cases hv : v = (((scaleMin + (m : ℤ)) : ℤ) : ℚ)
    · have hden : v.den = 1 := by rw [hv]; exact Rat.den_intCast _
      have hnum : v.num = scaleMin + m := by rw [hv]; exact Rat.num_intCast _
      rw [if_pos hv, if_neg, if_pos]
      · omega
      · exact ⟨hden, by omega, by omega⟩
      · rintro ⟨_, _, hlt⟩
        omega
    · rw [if_neg hv]
      by_cases hc : v.den = 1 ∧ scaleMin ≤ v.num ∧ v.num < scaleMin + m
      · rw [if_pos hc, if_pos ⟨hc.1, hc.2.1, by omega⟩]
        omega
      · have hside : ¬(v.den = 1 ∧ scaleMin ≤ v.num ∧
            v.num < scaleMin + ((m + 1 : ℕ) : ℤ)) := by
          rintro ⟨h1, h2, h3⟩
          apply hc
          refine ⟨h1, h2, ?_⟩
          rcases lt_or_eq_of_le (by omega : v.num ≤ scaleMin + m) with hlt | heq
          · exact hlt
          · exfalso
            apply hv
            have hcast : (v.num : ℚ) = v := (Rat.den_eq_one_iff v).mp h1
            rw [← hcast, heq]
        rw [if_neg hc, if_neg hside]
        omega

/-- Bucket sums against the integer-in-range test, response by response. -/
theorem dist_sum (key : String) (scaleMin : ℤ) (n : ℕ) :
    ∀ (rs : List SurveyResponse),
    ((List.range n).map (fun k : ℕ => rs.countP
      (fun r => r.answers.lookup key == some (((scaleMin + (k : ℤ)) : ℤ) : ℚ)))).sum
    = rs.countP (fun r =>
        match r.answers.lookup key with
        | some v => decide (v.den = 1 ∧ scaleMin ≤ v.num ∧ v.num < scaleMin + n)
        | none => false) := by
  intro rs
  induction rs with
  | nil => simp
  | cons r rs ih =>
    simp only [List.countP_cons]
    rw [sum_map_add, ih]
    congr 1
    cases hl : r.answers.lookup key with
    | none => simp [hl]
    | some v =>
      simp only [hl]
      have hfun : (fun k : ℕ =>
          if (some v == some (((scaleMin + (k : ℤ)) : ℤ) : ℚ)) = true then 1 else 0)
          = fun k : ℕ => if v = (((scaleMin + (k : ℤ)) : ℤ) : ℚ) then 1 else 0 := by
        funext k
        simp [beq_iff_eq]
      rw [hfun, indicator_sum]
      simp

/-- C9: for integer scale bounds `scaleMin ≤ scaleMax`, `getDistribution`
returns exactly `scaleMax - scaleMin + 1` buckets, one per integer value in
ascending order, the bucket of value `i` counting exactly the responses whose
answer equals `i`; the counts sum to the number of responses whose answer is
an integer within the bounds, so missing, out-of-range and non-integer
answers land in no bucket. -/
theorem c9_getDistribution_buckets (responses : List SurveyResponse)
    (questionKey : String) (scaleMin scaleMax : ℤ)
    (h : scaleMin ≤ scaleMax) :
    getDistribution responses questionKey scaleMin scaleMax
      = (List.range (scaleMax + 1 - scaleMin).toNat).map (fun k : ℕ =>
          ((scaleMin + (k : ℤ)),
            responses.countP (fun r =>
              r.answers.lookup questionKey == some (((scaleMin + (k : ℤ)) : ℤ) : ℚ))))
    ∧ (getDistribution responses questionKey scaleMin scaleMax).length
        = (scaleMax + 1 - scaleMin).toNat
    ∧ ((getDistribution responses questionKey scaleMin scaleMax).map
          (fun p => p.2)).sum
        = responses.countP (fun r =>
            match r.answers.lookup questionKey with
            | some v => decide (v.den = 1 ∧ scaleMin ≤ v.num ∧ v.num ≤ scaleMax)
            | none => false) := by
  have h1 : getDistribution responses questionKey scaleMin scaleMax
      = (List.range (scaleMax + 1 - scaleMin).toNat).map (fun k : ℕ =>
          ((scaleMin + (k : ℤ)),
            responses.countP (fun r =>
              r.answers.lookup questionKey ==
                some (((scaleMin + (k : ℤ)) : ℤ) : ℚ)))) := by
    simp only [getDistribution]
    rw [getDistribution_foldl]
    rw [List.map_map]
    apply List.map_congr_left
    intro k hk
    simp
  refine ⟨h1, ?_, ?_⟩
  · rw [h1]; simp
  · rw [h1]
    rw [List.map_map]
    simp only [Function.comp_def]
    rw [dist_sum questionKey scaleMin ((scaleMax + 1 - scaleMin).toNat)]
    apply List.countP_congr
    intro r hr
    cases hl : r.answers.lookup questionKey with
    | none => simp [hl]
    | some v =>
      simp only [hl]
      have hcast : (((scaleMax + 1 - scaleMin).toNat : ℤ)) = scaleMax + 1 - scaleMin :=
        Int.toNat_of_nonneg (by omega)
      have hiff : (v.den = 1 ∧ scaleMin ≤ v.num ∧
          v.num < scaleMin + ((scaleMax + 1 - scaleMin).toNat : ℤ))
          ↔ (v.den = 1 ∧ scaleMin ≤ v.num ∧ v.num ≤ scaleMax) := by
        rw [hcast]
        constructor
        · rintro ⟨a, b, c⟩; exact ⟨a, b, by omega⟩
        · rintro ⟨a, b, c⟩; exact ⟨a, b, by omega⟩
      simp only [decide_eq_true_eq]
      exact hiff

/-- Witness for C9 at a concrete input. -/
theorem c9_getDistribution_buckets_witness :
    (getDistribution [respSales] "q1" 1 5).length = 5 := by
  have h := (c9_getDistribution_buckets [respSales] "q1" 1 5 (by norm_num)).2.1
  simpa using h

/-- Witness for the amended C3 at a concrete input: a respondent with a
non-empty department gets a group. -/
theorem c3_amended_empty_department_dropped_witness :
    ∃ e ∈ runDepartmentAnalysis [respSales] [q1Sample] [],
      e.department = respSales.department := by
  refine (c3_amended_empty_department_dropped [respSales] [q1Sample] []).2
    respSales (by simp) ?_ (by simp)
  rw [respSales]
  decide

/-- C8: `runDepartmentAnalysis` emits exactly one entry per
(department, question) pair, departments in locale-aware sorted order of the
deduplicated non-empty department strings; `diffFromOverall` is `0` when no
overall result matches the question key and otherwise is computed against the
stored (already-rounded) overall mean, `round2 (deptMean - o.mean)` with the
unrounded department mean; the entry mean is the rounded department mean, `0`
when the department has no answers for the question. -/
theorem c8_department_entries (responses : List SurveyResponse)
    (questions : List Question) (overallResults : List AnalysisResult) :
    ((runDepartmentAnalysis responses questions overallResults).map
        (fun e => (e.department, e.questionKey))
      = (sortDepartments (jsSetList ((responses.map (fun r => r.department)).filter
          (fun d => d ≠ "")))).flatMap (fun d => questions.map (fun q => (d, q.key))))
    ∧ ((runDepartmentAnalysis responses questions overallResults).length
        = (sortDepartments (jsSetList ((responses.map (fun r => r.department)).filter
            (fun d => d ≠ "")))).length * questions.length)
    ∧ (∀ e ∈ runDepartmentAnalysis responses questions overallResults,
        overallResults.find? (fun r => r.questionKey = e.questionKey) = none →
        e.diffFromOverall = 0)
    ∧ (∀ e ∈ runDepartmentAnalysis responses questions overallResults, ∀ o,
        overallResults.find? (fun r => r.questionKey = e.questionKey) = some o →
        e.diffFromOverall = round2 (calcMean
          ((responses.filter (fun r => r.department = e.department)).filterMap
            (fun r => r.answers.lookup e.questionKey)) - o.mean))
    ∧ (∀ e ∈ runDepartmentAnalysis responses questions overallResults,
        e.mean = round2 (calcMean
          ((responses.filter (fun r => r.department = e.department)).filterMap
            (fun r => r.answers.lookup e.questionKey))))
    ∧ (∀ e ∈ runDepartmentAnalysis responses questions overallResults,
        (∀ r ∈ responses, r.department = e.department →
          r.answers.lookup e.questionKey = none) →
        e.mean = 0) := by
  refine ⟨?_, ?_, ?_, ?_, ?_, ?_⟩
  · rw [runDepartmentAnalysis]
    simp [List.map_flatMap, List.map_map, Function.comp_def]
  · rw [runDepartmentAnalysis]
    simp [List.length_flatMap, Function.comp_def, List.map_const]
  · intro e he hfind
    rw [runDepartmentAnalysis] at he
    simp only [List.mem_flatMap, List.mem_map] at he
    obtain ⟨dept, hdept, q, hq, rfl⟩ := he
    simp only at hfind ⊢
    rw [hfind]
  · intro e he o hfind
    rw [runDepartmentAnalysis] at he
    simp only [List.mem_flatMap, List.mem_map] at he
    obtain ⟨dept, hdept, q, hq, rfl⟩ := he
    simp only at hfind ⊢
    rw [hfind]
  · intro e he
    rw [runDepartmentAnalysis] at he
    simp only [List.mem_flatMap, List.mem_map] at he
    obtain ⟨dept, hdept, q, hq, rfl⟩ := he
    simp only
  · intro e he hnone
    rw [runDepartmentAnalysis] at he
    simp only [List.mem_flatMap, List.mem_map] at he
    obtain ⟨dept, hdept, q, hq, rfl⟩ := he
    simp only at hnone ⊢
    have hvals : (responses.filter (fun r => r.department = dept)).filterMap
        (fun r => r.answers.lookup q.key) = [] := by
      rw [List.filterMap_eq_nil_iff]
      intro r hr
      exact hnone r (List.mem_of_mem_filter hr)
        (by simpa using (List.mem_filter.mp hr).2)
    rw [hvals]
    simp [calcMean, round2]
    norm_num

/-- Witness for C8's membership conjuncts at a concrete input. -/
theorem c8_department_entries_witness :
    ∀ e ∈ runDepartmentAnalysis [respSales] [q1Sample] [],
      e.diffFromOverall = 0 := by
  intro e he
  exact (c8_department_entries [respSales] [q1Sample] []).2.2.1 e he (by rfl)

/-- The non-missing answers of a question, in respondent order (the source's
`values` array). -/
def answeredValues (responses : List SurveyResponse) (key : String) : List ℚ :=
  responses.filterMap (fun r => r.answers.lookup key)

/-- Every entry of `runAnalysis` is the per-question analysis of one of the
questions, against the shared overall-score vector. -/
theorem mem_runAnalysis {responses : List SurveyResponse}
    {questions : List Question} {settings : AppSettings} {r : AnalysisResult}
    (h : r ∈ runAnalysis responses questions settings) :
    ∃ q ∈ questions, r = analyzeQuestion responses
      (calcOverallScores responses (questions.map (fun q2 => q2.key)))
      settings q := by
  rw [runAnalysis] at h
  split_ifs at h with hc
  · simp at h
  · simp only [List.mem_map] at h
    obtain ⟨q, hq, rfl⟩ := h
    exact ⟨q, hq, rfl⟩

/-- Unfolded `lowRatio` field of a per-question analysis. -/
theorem analyzeQuestion_lowRatio (responses : List SurveyResponse)
    (overallScores : List ℚ) (settings : AppSettings) (q : Question) :
    (analyzeQuestion responses overallScores settings q).lowRatio
      = round2 (if 0 < (answeredValues responses q.key).length
          then (((answeredValues responses q.key).filter
              (fun v => v ≤ 2)).length : ℚ) / ((answeredValues responses q.key).length : ℚ)
          else 0) := rfl

/-- Unfolded `highRatio` field of a per-question analysis. -/
theorem analyzeQuestion_highRatio (responses : List SurveyResponse)
    (overallScores : List ℚ) (settings : AppSettings) (q : Question) :
    (analyzeQuestion responses overallScores settings q).highRatio
      = round2 (if 0 < (answeredValues responses q.key).length
          then (((answeredValues responses q.key).filter
              (fun v => 4 ≤ v)).length : ℚ) / ((answeredValues responses q.key).length : ℚ)
          else 0) := rfl

/-- Unfolded `importance` field of a per-question analysis. -/
theorem analyzeQuestion_importance (responses : List SurveyResponse)
    (overallScores : List ℚ) (settings : AppSettings) (q : Question) :
    (analyzeQuestion responses overallScores settings q).importance
      = round2R |calcCorrelation
          (responses.map (fun r => (r.answers.lookup q.key).getD 0))
          overallScores| := rfl

/-- No value counts toward both the low and the high tail. -/
theorem low_high_counts_le (l : List ℚ) :
    (l.filter (fun v => v ≤ 2)).length + (l.filter (fun v => 4 ≤ v)).length
      ≤ l.length := by
  induction l with
  | nil => simp
  | cons a t ih =>
    by_cases h1 : a ≤ 2 <;> by_cases h2 : (4 : ℚ) ≤ a
    · linarith
    · simp [List.filter_cons, h1, h2]; omega
    · simp [List.filter_cons, h1, h2]; omega
    · simp [List.filter_cons, h1, h2]; omega

/-- Rounding to two decimals overshoots by at most `1/200`. -/
theorem round2_le (q : ℚ) : round2 q ≤ q + 1/200 := by
  rw [round2]
  have h := Int.floor_le (q * 100 + 1/2)
  have h100 : (0 : ℚ) < 100 := by norm_num
  rw [div_le_iff₀ h100]
  linarith

/-- Rounding to two decimals undershoots by less than `1/200`. -/
theorem round2_nonneg (q : ℚ) (hq : 0 ≤ q) : 0 ≤ round2 q := by
  rw [round2]
  have h : (0 : ℤ) ≤ ⌊q * 100 + 1/2⌋ := by
    rw [Int.le_floor]
    push_cast
    linarith
  positivity

/-- C4 (amended): each `AnalysisResult` reports `lowRatio`/`highRatio` as the
rounded fraction of non-missing answers that are `≤ 2` / `≥ 4` (`0` with no
answers); the underlying fractions sum to at most `1`, and the reported
(rounded) values sum to at most `1.01` — rounding can push the reported sum
above `1` (see the counterexample), which is what the original claim missed. -/
theorem c4_low_high_ratio (responses : List SurveyResponse)
    (questions : List Question) (settings : AppSettings) :
    ∀ r ∈ runAnalysis responses questions settings, ∃ q ∈ questions,
      r.lowRatio = round2 (if 0 < (answeredValues responses q.key).length
        then (((answeredValues responses q.key).filter
            (fun v => v ≤ 2)).length : ℚ) / ((answeredValues responses q.key).length : ℚ)
        else 0)
      ∧ r.highRatio = round2 (if 0 < (answeredValues responses q.key).length
        then (((answeredValues responses q.key).filter
            (fun v => 4 ≤ v)).length : ℚ) / ((answeredValues responses q.key).length : ℚ)
        else 0)
      ∧ (answeredValues responses q.key = [] → r.lowRatio = 0 ∧ r.highRatio = 0)
      ∧ ((((answeredValues responses q.key).filter (fun v => v ≤ 2)).length : ℚ)
          + (((answeredValues responses q.key).filter (fun v => 4 ≤ v)).length : ℚ)
          ≤ (answeredValues responses q.key).length)
      ∧ r.lowRatio + r.highRatio ≤ 101/100 := by
  intro r hr
  obtain ⟨q, hq, rfl⟩ := mem_runAnalysis hr
  refine ⟨q, hq, analyzeQuestion_lowRatio _ _ _ _, analyzeQuestion_highRatio _ _ _ _,
    ?_, ?_, ?_⟩
  · intro hempty
    rw [analyzeQuestion_lowRatio, analyzeQuestion_highRatio, hempty]
    constructor <;> · simp [round2]; norm_num
  · exact_mod_cast low_high_counts_le (answeredValues responses q.key)
  · rw [analyzeQuestion_lowRatio, analyzeQuestion_highRatio]
    by_cases hlen : 0 < (answeredValues responses q.key).length
    · set values := answeredValues responses q.key with hv
      set a : ℚ := ((values.filter (fun v => v ≤ 2)).length : ℚ) / (values.length : ℚ)
      set b : ℚ := ((values.filter (fun v => 4 ≤ v)).length : ℚ) / (values.length : ℚ)
      have hab : a + b ≤ 1 := by
        have hsum := low_high_counts_le values
        have hlen' : (0 : ℚ) < (values.length : ℚ) := by exact_mod_cast hlen
        rw [div_add_div_same, div_le_one hlen']
        exact_mod_cast hsum
      have ha := round2_le a
      have hb := round2_le b
      rw [if_pos hlen, if_pos hlen]
      linarith
    · rw [if_neg hlen, if_neg hlen]
      have h0 : round2 0 = 0 := by simp [round2]; norm_num
      rw [h0]
      norm_num

/-- Respondent used by the C4 counterexample. -/
def mkResp (n : ℕ) (v : ℚ) : SurveyResponse :=
  { id := Nat.repr n, projectId := "p", respondentId := Nat.repr n,
    department := "", answers := [("q1", v)] }

/-- Input of the C4 counterexample: eight answers to one question, five of
them `1` (low) and three of them `5` (high). -/
def c4Responses : List SurveyResponse :=
  [mkResp 1 1, mkResp 2 1, mkResp 3 1, mkResp 4 1, mkResp 5 1,
   mkResp 6 5, mkResp 7 5, mkResp 8 5]

/-- C4 counterexample: with 5 of 8 answers low and 3 of 8 high, the reported
ratios are `round2 (5/8) = 0.63` and `round2 (3/8) = 0.38`, whose sum `1.01`
exceeds `1` — the claimed invariant `lowRatio + highRatio ≤ 1` fails on the
reported (rounded) values. -/
theorem c4_counterexample :
    ∃ r ∈ runAnalysis c4Responses [q1Sample] stSample,
      ¬(r.lowRatio + r.highRatio ≤ 1) := by
  refine ⟨analyzeQuestion c4Responses
    (calcOverallScores c4Responses ([q1Sample].map (fun q2 => q2.key)))
    stSample q1Sample, ?_, ?_⟩
  · rw [runAnalysis]
    rw [if_neg (by simp [c4Responses])]
    simp
  · rw [analyzeQuestion_lowRatio, analyzeQuestion_highRatio]
    have hvals : answeredValues c4Responses q1Sample.key
        = [1, 1, 1, 1, 1, 5, 5, 5] := by
      simp [answeredValues, c4Responses, mkResp, q1Sample]
    rw [hvals]
    norm_num [List.filter_cons, round2]

/-- Witness for the amended C4 at a concrete input. -/
theorem c4_low_high_ratio_witness :
    (analyzeQuestion [respSales]
      (calcOverallScores [respSales] ([q1Sample].map (fun q2 => q2.key)))
      stSample q1Sample).lowRatio
    + (analyzeQuestion [respSales]
      (calcOverallScores [respSales] ([q1Sample].map (fun q2 => q2.key)))
      stSample q1Sample).highRatio ≤ 101/100 := by
  have hmem : analyzeQuestion [respSales]
      (calcOverallScores [respSales] ([q1Sample].map (fun q2 => q2.key)))
      stSample q1Sample ∈ runAnalysis [respSales] [q1Sample] stSample := by
    rw [runAnalysis, if_neg (by simp)]
    simp
  obtain ⟨q, hq, h1, h2, h3, h4, h5⟩ :=
    c4_low_high_ratio [respSales] [q1Sample] stSample _ hmem
  exact h5

/-- Sums of squares are nonnegative. -/
theorem sum_map_sq_nonneg (l : List (ℚ × ℚ)) (f : ℚ × ℚ → ℚ) :
    0 ≤ (l.map (fun p => (f p) ^ 2)).sum := by
  induction l with
  | nil => simp
  | cons a t ih =>
    simp only [List.map_cons, List.sum_cons]
    have h := sq_nonneg (f a)
    linarith

/-- Two-decimal rounding keeps a value of `[0, 1]` inside `[0, 1]`. -/
theorem round2R_mem_unit {x : ℝ} (h0 : 0 ≤ x) (h1 : x ≤ 1) :
    0 ≤ round2R x ∧ round2R x ≤ 1 := by
  constructor
  · rw [round2R]
    have h : (0 : ℤ) ≤ ⌊x * 100 + 1/2⌋ := by
      rw [Int.le_floor]
      push_cast
      linarith
    have h2 : (0 : ℝ) ≤ ((⌊x * 100 + 1/2⌋ : ℤ) : ℝ) := by exact_mod_cast h
    linarith
  · rw [round2R]
    have hfl : ((⌊x * 100 + 1/2⌋ : ℤ) : ℝ) ≤ x * 100 + 1/2 := Int.floor_le _
    have h2 : (⌊x * 100 + 1/2⌋ : ℤ) ≤ 100 := by
      by_contra hc
      push_neg at hc
      have h3 : (101 : ℝ) ≤ ((⌊x * 100 + 1/2⌋ : ℤ) : ℝ) := by exact_mod_cast hc
      linarith
    have h3 : ((⌊x * 100 + 1/2⌋ : ℤ) : ℝ) ≤ 100 := by exact_mod_cast h2
    linarith

/-- List sums as `Finset.range` sums, for transferring Cauchy–Schwarz. -/
theorem list_sum_eq_range (l : List (ℚ × ℚ)) (f : ℚ × ℚ → ℚ) :
    (l.map f).sum = ∑ i ∈ Finset.range l.length, f (l.getD i (0, 0)) := by
  induction l with
  | nil => simp
  | cons a t ih =>
    simp only [List.map_cons, List.sum_cons, List.length_cons,
      Finset.sum_range_succ', List.getD_cons_succ, List.getD_cons_zero]
    rw [ih]
    ring

/-- Cauchy–Schwarz inequality for list sums. -/
theorem list_cauchy_schwarz (f g : ℚ × ℚ → ℚ) (l : List (ℚ × ℚ)) :
    ((l.map (fun p => f p * g p)).sum) ^ 2
      ≤ ((l.map (fun p => (f p) ^ 2)).sum) * ((l.map (fun p => (g p) ^ 2)).sum) := by
  rw [list_sum_eq_range l (fun p => f p * g p), list_sum_eq_range l (fun p => (f p) ^ 2),
    list_sum_eq_range l (fun p => (g p) ^ 2)]
  exact Finset.sum_mul_sq_le_sq_mul_sq (Finset.range l.length)
    (fun i => f (l.getD i (0, 0))) (fun i => g (l.getD i (0, 0)))

/-- Unfolded form of `calcCorrelation` (the `let` chain of the source,
zeta-reduced). -/
theorem calcCorrelation_eq (x y : List ℚ) :
    calcCorrelation x y = if x.length ≤ 1 then 0
      else if Real.sqrt ((((((x.zip y).map (fun p => (p.1 - calcMean x) ^ 2)).sum *
            ((x.zip y).map (fun p => (p.2 - calcMean y) ^ 2)).sum : ℚ)) : ℝ)) = 0 then 0
      else (((((x.zip y).map (fun p => (p.1 - calcMean x) * (p.2 - calcMean y))).sum : ℚ) : ℝ)
        / Real.sqrt ((((((x.zip y).map (fun p => (p.1 - calcMean x) ^ 2)).sum *
            ((x.zip y).map (fun p => (p.2 - calcMean y) ^ 2)).sum : ℚ)) : ℝ))) := rfl

/-- The Pearson correlation of the source always lies in `[-1, 1]` in absolute
value. -/
theorem abs_calcCorrelation_le_one (x y : List ℚ) :
    |calcCorrelation x y| ≤ 1 := by
  rw [calcCorrelation_eq]
  set pairs := x.zip y with hp
  set mX := calcMean x with hmX
  set mY := calcMean y with hmY
  set num := (pairs.map (fun p => (p.1 - mX) * (p.2 - mY))).sum with hnum
  set dX := (pairs.map (fun p => (p.1 - mX) ^ 2)).sum with hdX
  set dY := (pairs.map (fun p => (p.2 - mY) ^ 2)).sum with hdY
  split_ifs with h1 h2
  · simp
  · simp
  · have hXnn : (0 : ℚ) ≤ dX := sum_map_sq_nonneg pairs (fun p => p.1 - mX)
    have hYnn : (0 : ℚ) ≤ dY := sum_map_sq_nonneg pairs (fun p => p.2 - mY)
    have hpos : (0 : ℝ) < ((dX * dY : ℚ) : ℝ) := by
      rcases lt_or_eq_of_le (mul_nonneg hXnn hYnn) with hlt | heq
      · exact_mod_cast hlt
      · exfalso
        apply h2
        rw [← heq]
        push_cast
        exact Real.sqrt_zero
    have hcs : (num : ℚ) ^ 2 ≤ dX * dY :=
      list_cauchy_schwarz (fun p => p.1 - mX) (fun p => p.2 - mY) pairs
    have hsq : ((num : ℚ) : ℝ) ^ 2 ≤ ((dX * dY : ℚ) : ℝ) := by exact_mod_cast hcs
    rw [abs_div, abs_of_nonneg (Real.sqrt_nonneg _),
      div_le_one (Real.sqrt_pos.mpr hpos)]
    rw [Real.le_sqrt (abs_nonneg _) (le_of_lt hpos)]
    rwa [sq_abs]

/-- C1: the importance reported by `runAnalysis` for a question is the
absolute Pearson correlation between the question's answers with missing
values substituted by `0` and the respondents' overall scores, rounded to two
decimals and lying in `[0, 1]`; the correlation is `0` with fewer than two
respondents or when either vector has zero variance. -/
theorem c1_importance_pearson (responses : List SurveyResponse)
    (questions : List Question) (settings : AppSettings) :
    (∀ r ∈ runAnalysis responses questions settings, ∃ q ∈ questions,
      r.importance = round2R |calcCorrelation
        (responses.map (fun resp => (resp.answers.lookup q.key).getD 0))
        (calcOverallScores responses (questions.map (fun q2 => q2.key)))|
      ∧ 0 ≤ r.importance ∧ r.importance ≤ 1)
    ∧ (∀ x y : List ℚ, x.length ≤ 1 → calcCorrelation x y = 0)
    ∧ (∀ x y : List ℚ, x.length = y.length →
        ((x.map (fun v => (v - calcMean x) ^ 2)).sum = 0 ∨
         (y.map (fun v => (v - calcMean y) ^ 2)).sum = 0) →
        calcCorrelation x y = 0) := by
  refine ⟨?_, ?_, ?_⟩
  · intro r hr
    obtain ⟨q, hq, rfl⟩ := mem_runAnalysis hr
    refine ⟨q, hq, analyzeQuestion_importance _ _ _ _, ?_, ?_⟩
    · rw [analyzeQuestion_importance]
      exact (round2R_mem_unit (abs_nonneg _) (abs_calcCorrelation_le_one _ _)).1
    · rw [analyzeQuestion_importance]
      exact (round2R_mem_unit (abs_nonneg _) (abs_calcCorrelation_le_one _ _)).2
  · intro x y hxy
    rw [calcCorrelation_eq, if_pos hxy]
  · intro x y hxy hd
    rw [calcCorrelation_eq]
    set mX := calcMean x with hmX
    set mY := calcMean y with hmY
    by_cases h1 : x.length ≤ 1
    · rw [if_pos h1]
    · rw [if_neg h1]
      have hx : (x.zip y).map (fun p => (p.1 - mX) ^ 2)
          = x.map (fun v => (v - mX) ^ 2) := by
        conv_rhs => rw [← List.map_fst_zip x y (le_of_eq hxy)]
        rw [List.map_map]
        rfl
      have hy : (x.zip y).map (fun p => (p.2 - mY) ^ 2)
          = y.map (fun v => (v - mY) ^ 2) := by
        conv_rhs => rw [← List.map_snd_zip x y (le_of_eq hxy.symm)]
        rw [List.map_map]
        rfl
      have hzero : (((x.zip y).map (fun p => (p.1 - mX) ^ 2)).sum *
          ((x.zip y).map (fun p => (p.2 - mY) ^ 2)).sum : ℚ) = 0 := by
        rw [hx, hy]
        rcases hd with hd | hd
        · rw [hd, zero_mul]
        · rw [hd, mul_zero]
      rw [if_pos]
      rw [hzero]
      push_cast
      exact Real.sqrt_zero

/-- Witness for C1's degenerate-case conjunct at a concrete input. -/
theorem c1_importance_pearson_witness :
    calcCorrelation [3] [] = 0 :=
  (c1_importance_pearson [] [] stSample).2.1 [3] [] (by simp)

/-- Exchanging the heads of two positions across a split is a permutation. -/
theorem cons_middle_swap {α : Type} (p q : α) (A C : List α) :
    (p :: (A ++ q :: C)).Perm (q :: (A ++ p :: C)) :=
  (List.Perm.cons p List.perm_middle).trans
    ((List.Perm.swap q p (A ++ C)).trans (List.Perm.cons q List.perm_middle.symm))

/-- The double `set` of an in-bounds swap permutes the list. -/
theorem set_set_perm {α : Type} : ∀ (l : List α) (i j : ℕ) (a b : α),
    l[i]? = some a → l[j]? = some b → ((l.set i b).set j a).Perm l := by
  intro l
  induction l with
  | nil =>
    intro i j a b hi hj
    simp at hi
  | cons x t ih =>
    intro i j a b hi hj
    match i, j with
    | 0, 0 =>
      simp only [List.getElem?_cons_zero, Option.some.injEq] at hi hj
      subst hi
      subst hj
      rw [List.set_cons_zero, List.set_cons_zero]
    | 0, Nat.succ j' =>
      simp only [List.getElem?_cons_zero, Option.some.injEq] at hi
      simp only [List.getElem?_cons_succ] at hj
      subst hi
      have hjlt : j' < t.length := (List.getElem?_eq_some_iff.mp hj).1
      have hget : t[j'] = b := (List.getElem?_eq_some_iff.mp hj).2
      have hset : t.set j' x = t.take j' ++ x :: t.drop (j' + 1) := by
        rw [List.set_eq_take_append_cons_drop, if_pos hjlt]
      have hdecomp : t = t.take j' ++ b :: t.drop (j' + 1) := by
        conv_lhs => rw [← List.take_append_drop j' t]
        congr 1
        rw [List.drop_eq_getElem_cons hjlt, hget]
      rw [List.set_cons_zero, List.set_cons_succ, hset]
      conv_rhs => rw [hdecomp]
      exact cons_middle_swap b x _ _
    | Nat.succ i', 0 =>
      simp only [List.getElem?_cons_zero, Option.some.injEq] at hj
      simp only [List.getElem?_cons_succ] at hi
      subst hj
      have hilt : i' < t.length := (List.getElem?_eq_some_iff.mp hi).1
      have hget : t[i'] = a := (List.getElem?_eq_some_iff.mp hi).2
      have hset : t.set i' x = t.take i' ++ x :: t.drop (i' + 1) := by
        rw [List.set_eq_take_append_cons_drop, if_pos hilt]
      have hdecomp : t = t.take i' ++ a :: t.drop (i' + 1) := by
        conv_lhs => rw [← List.take_append_drop i' t]
        congr 1
        rw [List.drop_eq_getElem_cons hilt, hget]
      rw [List.set_cons_succ, List.set_cons_zero, hset]
      conv_rhs => rw [hdecomp]
      exact cons_middle_swap a x _ _
    | Nat.succ i', Nat.succ j' =>
      simp only [List.getElem?_cons_succ] at hi hj
      rw [List.set_cons_succ, List.set_cons_succ]
      exact List.Perm.cons x (ih i' j' a b hi hj)

/-- `listSwap` permutes the list. -/
theorem listSwap_perm {α : Type} (l : List α) (i j : ℕ) :
    (listSwap l i j).Perm l := by
  rw [listSwap]
  cases hi : l[i]? with
  | none => exact List.Perm.refl l
  | some a =>
    cases hj : l[j]? with
    | none => exact List.Perm.refl l
    | some b => exact set_set_perm l i j a b hi hj

/-- The Fisher–Yates loop permutes the list. -/
theorem fyLoop_perm {α : Type} (rand : ℕ → ℕ) :
    ∀ (k : ℕ) (l : List α), (fyLoop rand l k).Perm l := by
  intro k
  induction k with
  | zero => intro l; exact List.Perm.refl l
  | succ k ih =>
    intro l
    exact (ih _).trans (listSwap_perm l (k + 1) (rand (k + 1) % (k + 2)))

/-- The Fisher–Yates shuffle permutes the list, for every random stream. -/
theorem fisherYates_perm {α : Type} (rand : ℕ → ℕ) (l : List α) :
    (fisherYates rand l).Perm l :=
  fyLoop_perm rand (l.length - 1) l

/-- Cons equation of `List.lookup`, with the Boolean test explicit. -/
theorem lookup_cons_bool (k : String) (p : String × Cell) (t : Row) :
    List.lookup k (p :: t) = bif k == p.1 then some p.2 else List.lookup k t := by
  obtain ⟨a, b⟩ := p
  rfl

/-- Replacing the value at another key does not change a lookup. -/
theorem lookup_map_replace (k k' : String) (v : Cell) (h : k' ≠ k) :
    ∀ (row : Row), (row.map (fun p => if p.1 = k' then (k', v) else p)).lookup k
      = row.lookup k := by
  intro row
  induction row with
  | nil => rfl
  | cons p t ih =>
    simp only [List.map_cons]
    by_cases hp : p.1 = k'
    · rw [if_pos hp]
      rw [lookup_cons_bool, lookup_cons_bool]
      have h1 : (k == ((k', v) : String × Cell).1) = false := by
        rw [beq_eq_false_iff_ne]
        exact fun hc => h hc.symm
      have h2 : (k == p.1) = false := by
        rw [beq_eq_false_iff_ne, hp]
        exact fun hc => h hc.symm
      rw [h1, h2]
      exact ih
    · rw [if_neg hp]
      rw [lookup_cons_bool, lookup_cons_bool]
      cases hkp : (k == p.1) with
      | true => rfl
      | false => simp only [Bool.cond_false]; exact ih

/-- Appending a pair with another key does not change a lookup. -/
theorem lookup_append_single_ne (k k' : String) (v : Cell) (h : k' ≠ k) :
    ∀ (row : Row), (row ++ [(k', v)]).lookup k = row.lookup k := by
  intro row
  induction row with
  | nil =>
    simp only [List.nil_append]
    rw [lookup_cons_bool]
    have h1 : (k == ((k', v) : String × Cell).1) = false := by
      rw [beq_eq_false_iff_ne]
      exact fun hc => h hc.symm
    rw [h1]
    rfl
  | cons p t ih =>
    simp only [List.cons_append]
    rw [lookup_cons_bool, lookup_cons_bool]
    cases hkp : (k == p.1) with
    | true => rfl
    | false => simp only [Bool.cond_false]; exact ih

/-- Setting one key leaves lookups of other keys unchanged. -/
theorem lookup_mapSet_ne (row : Row) (k k' : String) (v : Cell) (h : k' ≠ k) :
    (mapSet row k' v).lookup k = row.lookup k := by
  rw [mapSet]
  split_ifs with hany
  · exact lookup_map_replace k k' v h row
  · exact lookup_append_single_ne k k' v h row

/-- Setting a key makes it present with the written value. -/
theorem lookup_mapSet_self (row : Row) (k : String) (v : Cell) :
    (mapSet row k v).lookup k = some v := by
  rw [mapSet]
  split_ifs with hany
  · induction row with
    | nil => simp at hany
    | cons p t ih =>
      simp only [List.map_cons]
      by_cases hp : p.1 = k
      · rw [if_pos hp, lookup_cons_bool]
        simp
      · rw [if_neg hp, lookup_cons_bool]
        have hk : (k == p.1) = false := by
          rw [beq_eq_false_iff_ne]
          exact fun hc => hp hc.symm
        rw [hk]
        simp only [Bool.cond_false]
        apply ih
        simp only [List.any_cons, Bool.or_eq_true] at hany
        rcases hany with h1 | h1
        · exact absurd (by simpa using h1) hp
        · exact h1
  · induction row with
    | nil => simp [lookup_cons_bool]
    | cons p t ih =>
      simp only [List.any_cons, Bool.or_eq_true] at hany
      push_neg at hany
      simp only [List.cons_append]
      rw [lookup_cons_bool]
      have hk : (k == p.1) = false := by
        rw [beq_eq_false_iff_ne]
        intro hc
        exact hany.1 (by simp [hc.symm])
      rw [hk]
      simp only [Bool.cond_false]
      exact ih hany.2

/-- The `buildRow` fold step. -/
def buildStep (i : ℕ) (row : Row) (p : String × List (Option ℚ)) : Row :=
  match p.2.getD i none with
  | some score => mapSet row p.1 (Cell.num score)
  | none => row

/-- A fold over pairs whose keys all differ from `k` does not change the
lookup of `k`. -/
theorem foldl_buildStep_lookup_ne (i : ℕ) (k : String) :
    ∀ (pairs : List (String × List (Option ℚ))) (row0 : Row),
    (∀ p ∈ pairs, p.1 ≠ k) →
    ((pairs.foldl (buildStep i) row0).lookup k) = row0.lookup k := by
  intro pairs
  induction pairs with
  | nil => intro row0 h; rfl
  | cons p t ih =>
    intro row0 h
    rw [List.foldl_cons]
    rw [ih _ (fun q hq => h q (List.mem_cons_of_mem p hq))]
    rw [buildStep]
    cases p.2.getD i none with
    | some score => exact lookup_mapSet_ne row0 k p.1 _ (h p (List.mem_cons_self p t))
    | none => rfl

/-- Looking up the key of the `idx`-th pair after folding `buildStep` yields
that pair's array entry at `i` (keys distinct, key initially absent). -/
theorem foldl_buildStep_lookup (i : ℕ) (k : String) :
    ∀ (pairs : List (String × List (Option ℚ))) (row0 : Row) (idx : ℕ)
      (hidx : idx < pairs.length),
    (pairs.get ⟨idx, hidx⟩).1 = k →
    (pairs.map (fun p => p.1)).Nodup →
    row0.lookup k = none →
    ((pairs.foldl (buildStep i) row0).lookup k)
      = ((pairs.get ⟨idx, hidx⟩).2.getD i none).map Cell.num := by
  intro pairs
  induction pairs with
  | nil =>
    intro row0 idx hidx
    simp at hidx
  | cons p t ih =>
    intro row0 idx hidx hk hnodup hrow0
    rw [List.foldl_cons]
    match idx with
    | 0 =>
      simp only [List.get] at hk
      have hne : ∀ q ∈ t, q.1 ≠ k := by
        intro q hq hc
        rw [List.map_cons, List.nodup_cons] at hnodup
        exact hnodup.1 (hk ▸ hc ▸ List.mem_map_of_mem (fun p2 => p2.1) hq)
      rw [foldl_buildStep_lookup_ne i k t _ hne]
      simp only [List.get]
      rw [buildStep]
      cases hg : p.2.getD i none with
      | some score =>
        simp only [hg, Option.map_some']
        rw [← hk]
        exact lookup_mapSet_self row0 p.1 _
      | none =>
        simp only [hg, Option.map_none']
        rw [hrow0]
    | Nat.succ idx' =>
      have hidx' : idx' < t.length := by
        simpa using hidx
      have hk' : (t.get ⟨idx', hidx'⟩).1 = k := hk
      have hmem : k ∈ t.map (fun p => p.1) := by
        rw [← hk']
        exact List.mem_map_of_mem _ (t.get_mem idx' hidx')
      have hpne : p.1 ≠ k := by
        rw [List.map_cons, List.nodup_cons] at hnodup
        intro hc
        exact hnodup.1 (hc ▸ hmem)
      have hrow1 : (buildStep i row0 p).lookup k = none := by
        rw [buildStep]
        cases p.2.getD i none with
        | some score => rw [lookup_mapSet_ne row0 k p.1 _ hpne]; exact hrow0
        | none => exact hrow0
      have hnodup' : (t.map (fun p => p.1)).Nodup := by
        rw [List.map_cons, List.nodup_cons] at hnodup
        exact hnodup.2
      exact ih (buildStep i row0 p) idx' hidx' hk' hnodup' hrow1

/-- The `buildRow` fold is a `buildStep` fold. -/
theorem buildRow_eq_foldl (keys : List String) (arrays : List (List (Option ℚ)))
    (i : ℕ) :
    buildRow keys arrays i
      = (keys.zip arrays).foldl (buildStep i)
          [("回答者ID", Cell.str (padId (i + 1)))] := rfl

/-- Lookup of the `idx`-th question key in a built pseudo row. -/
theorem buildRow_lookup (keys : List String) (arrays : List (List (Option ℚ)))
    (i : ℕ) (idx : ℕ) (hidx : idx < keys.length) (hlen : keys.length ≤ arrays.length)
    (hnodup : keys.Nodup) (hid : keys.get ⟨idx, hidx⟩ ≠ "回答者ID") :
    (buildRow keys arrays i).lookup (keys.get ⟨idx, hidx⟩)
      = ((arrays.get ⟨idx, lt_of_lt_of_le hidx hlen⟩).getD i none).map Cell.num := by
  have hzlen : idx < (keys.zip arrays).length := by
    rw [List.length_zip]
    exact lt_min hidx (lt_of_lt_of_le hidx hlen)
  have hfst : ((keys.zip arrays).get ⟨idx, hzlen⟩).1 = keys.get ⟨idx, hidx⟩ := by
    simp [List.get_eq_getElem, List.getElem_zip]
  have hsnd : ((keys.zip arrays).get ⟨idx, hzlen⟩).2
      = arrays.get ⟨idx, lt_of_lt_of_le hidx hlen⟩ := by
    simp [List.get_eq_getElem, List.getElem_zip]
  have hmapfst : (keys.zip arrays).map (fun p => p.1) = keys :=
    List.map_fst_zip keys arrays hlen
  have hinit : (([("回答者ID", Cell.str (padId (i + 1)))] : Row)).lookup
      (keys.get ⟨idx, hidx⟩) = none := by
    rw [lookup_cons_bool]
    have hb : (keys.get ⟨idx, hidx⟩ ==
        (("回答者ID", Cell.str (padId (i + 1))) : String × Cell).1) = false := by
      rw [beq_eq_false_iff_ne]
      exact hid
    rw [hb]
    rfl
  rw [buildRow_eq_foldl]
  rw [foldl_buildStep_lookup i (keys.get ⟨idx, hidx⟩) (keys.zip arrays) _ idx hzlen
    hfst (by rw [hmapfst]; exact hnodup) hinit]
  rw [hsnd]

/-- Reading a list back from its index range. -/
theorem range_map_getD (arr : List (Option ℚ)) :
    (List.range arr.length).map (fun j => arr.getD j none) = arr := by
  apply List.ext_getElem
  · simp
  · intro n h1 h2
    simp only [List.getElem_map, List.getElem_range]
    exact List.getD_eq_getElem arr none h2

/-- Filtering the `some`s of mapped options. -/
theorem filterMap_map_num (arr : List (Option ℚ)) :
    arr.filterMap (fun o => o.map Cell.num) = (arr.reduceOption).map Cell.num := by
  induction arr with
  | nil => rfl
  | cons o t ih =>
    cases o with
    | none => simpa [List.reduceOption_cons_of_none] using ih
    | some v => simp [List.reduceOption_cons_of_some, ih]

/-- Counting in the reduced options counts the `some`s. -/
theorem count_reduceOption (s : ℚ) (l : List (Option ℚ)) :
    (l.reduceOption).count s = l.count (some s) := by
  induction l with
  | nil => rfl
  | cons o t ih =>
    cases o with
    | none =>
      rw [List.reduceOption_cons_of_none, List.count_cons, ih]
      simp
    | some v =>
      rw [List.reduceOption_cons_of_some, List.count_cons, List.count_cons, ih]
      by_cases hv : v = s <;> simp [hv]

/-- Counting the present entries of the reduced options. -/
theorem countP_isSome_eq_length_reduceOption (l : List (Option ℚ)) :
    l.countP (fun o => o.isSome) = l.reduceOption.length := by
  induction l with
  | nil => rfl
  | cons o t ih =>
    cases o with
    | none => simpa [List.reduceOption_cons_of_none, List.countP_cons] using ih
    | some v => simp [List.reduceOption_cons_of_some, List.countP_cons, ih]

/-- The extracted column of the `idx`-th question key across all pseudo rows
is exactly its (shuffled) score array's present entries. -/
theorem pseudoRows_column (keys : List String) (arrays : List (List (Option ℚ)))
    (numRows : ℕ) (idx : ℕ) (hidx : idx < keys.length)
    (hlen : keys.length ≤ arrays.length) (hnodup : keys.Nodup)
    (hid : keys.get ⟨idx, hidx⟩ ≠ "回答者ID")
    (harr : (arrays.get ⟨idx, lt_of_lt_of_le hidx hlen⟩).length = numRows) :
    (pseudoRowsOf keys arrays numRows).filterMap
        (fun row => row.lookup (keys.get ⟨idx, hidx⟩))
      = ((arrays.get ⟨idx, lt_of_lt_of_le hidx hlen⟩).reduceOption).map Cell.num := by
  rw [pseudoRowsOf, List.filterMap_map]
  simp only [Function.comp_def]
  rw [List.filterMap_congr (g := fun j =>
      ((arrays.get ⟨idx, lt_of_lt_of_le hidx hlen⟩).getD j none).map Cell.num)
    (fun j hj => buildRow_lookup keys arrays j idx hidx hlen hnodup hid)]
  rw [← harr]
  conv_lhs =>
    rw [show (fun j => ((arrays.get ⟨idx, lt_of_lt_of_le hidx hlen⟩).getD j none).map
        Cell.num)
      = (fun o => o.map Cell.num) ∘
        (fun j => (arrays.get ⟨idx, lt_of_lt_of_le hidx hlen⟩).getD j none) from rfl]
    rw [← List.filterMap_map]
    rw [range_map_getD]
  exact filterMap_map_num _

/-- The number of pseudo rows carrying the `idx`-th question key equals the
number of present entries of its score array. -/
theorem pseudoRows_column_isSome (keys : List String)
    (arrays : List (List (Option ℚ))) (numRows : ℕ) (idx : ℕ)
    (hidx : idx < keys.length) (hlen : keys.length ≤ arrays.length)
    (hnodup : keys.Nodup) (hid : keys.get ⟨idx, hidx⟩ ≠ "回答者ID")
    (harr : (arrays.get ⟨idx, lt_of_lt_of_le hidx hlen⟩).length = numRows) :
    (pseudoRowsOf keys arrays numRows).countP
        (fun row => (row.lookup (keys.get ⟨idx, hidx⟩)).isSome)
      = (arrays.get ⟨idx, lt_of_lt_of_le hidx hlen⟩).reduceOption.length := by
  rw [pseudoRowsOf, List.countP_map]
  simp only [Function.comp_def]
  rw [List.countP_congr (q := fun j =>
      ((arrays.get ⟨idx, lt_of_lt_of_le hidx hlen⟩).getD j none).isSome)
    (fun j hj => by
      simp only [Function.comp]
      rw [buildRow_lookup keys arrays j idx hidx hlen hnodup hid]
      simp [Option.isSome_map])]
  rw [← harr]
  rw [show (fun j => ((arrays.get ⟨idx, lt_of_lt_of_le hidx hlen⟩).getD j none).isSome)
      = (fun o : Option ℚ => o.isSome) ∘
        (fun j => (arrays.get ⟨idx, lt_of_lt_of_le hidx hlen⟩).getD j none) from rfl]
  rw [← List.countP_map, range_map_getD]
  exact countP_isSome_eq_length_reduceOption _

/-- Scores outside the count map do not occur in its expansion. -/
theorem count_expandCounts_zero (s : ℚ) :
    ∀ (counts : List (ℚ × ℚ)), s ∉ counts.map (fun p => p.1) →
    (expandCounts counts).count s = 0 := by
  intro counts
  induction counts with
  | nil => intro h; rfl
  | cons p t ih =>
    intro h
    simp only [List.map_cons, List.mem_cons, not_or] at h
    simp only [expandCounts, List.flatMap_cons]
    rw [List.count_append, List.count_replicate]
    have hs : (p.1 == s) = false := by
      rw [beq_eq_false_iff_ne]
      exact fun hc => h.1 hc.symm
    rw [hs]
    simpa [expandCounts] using ih h.2

/-- The expansion contains each mapped score exactly `⌈count⌉⁺` times (distinct
score keys). -/
theorem count_expandCounts (s c : ℚ) :
    ∀ (counts : List (ℚ × ℚ)), (counts.map (fun p => p.1)).Nodup →
    (s, c) ∈ counts →
    (expandCounts counts).count s = (Int.ceil c).toNat := by
  intro counts
  induction counts with
  | nil => intro _ h; simp at h
  | cons p t ih =>
    intro hnodup hmem
    simp only [List.map_cons, List.nodup_cons] at hnodup
    simp only [expandCounts, List.flatMap_cons]
    rw [List.count_append, List.count_replicate]
    rcases List.mem_cons.mp hmem with heq | hmem'
    · have hp1 : p.1 = s := by rw [← heq]
      have hp2 : p.2 = c := by rw [← heq]
      rw [if_pos (by simp [hp1])]
      have hzero : (expandCounts t).count s = 0 := by
        apply count_expandCounts_zero
        rw [← hp1]
        exact hnodup.1
      simpa [expandCounts, hp2] using hzero
    · have hs : s ∈ t.map (fun p => p.1) := by
        have hm := List.mem_map_of_mem (fun p2 : ℚ × ℚ => p2.1) hmem'
        simpa using hm
      have hps : (p.1 == s) = false := by
        rw [beq_eq_false_iff_ne]
        intro hc
        exact hnodup.1 (hc ▸ hs)
      rw [hps]
      simpa [expandCounts] using ih hnodup.2 hmem'

/-- Counting after wrapping each element in `some`. -/
theorem count_map_some (s : ℚ) (l : List ℚ) :
    (l.map some).count (some s) = l.count s := by
  induction l with
  | nil => rfl
  | cons a t ih =>
    rw [List.map_cons, List.count_cons, List.count_cons, ih]
    by_cases ha : a = s
    · simp [ha]
    · have h1 : ((some a : Option ℚ) == some s) = false := by
        rw [beq_eq_false_iff_ne]
        simpa using ha
      have h2 : (a == s) = false := by
        rw [beq_eq_false_iff_ne]
        exact ha
      rw [h1, h2]

/-- Unfolded `paddedArray`. -/
theorem paddedArray_eq (q : QuestionFreq) (numRows : ℕ) :
    paddedArray q numRows = (expandCounts q.counts).map some
      ++ List.replicate (numRows - ((expandCounts q.counts).map some).length)
          none := rfl

/-- Counting a present score in the padded array. -/
theorem paddedArray_count_some (q : QuestionFreq) (numRows : ℕ) (s : ℚ) :
    (paddedArray q numRows).count (some s) = (expandCounts q.counts).count s := by
  rw [paddedArray_eq, List.count_append, List.count_replicate]
  have h1 : ((none : Option ℚ) == some s) = false := by
    rw [beq_eq_false_iff_ne]
    simp
  rw [h1]
  simp only [if_false, add_zero, Bool.false_eq_true]
  exact count_map_some s (expandCounts q.counts)

/-- Counting the filled slots of a replicate of `none`. -/
theorem countP_replicate_none (n : ℕ) :
    (List.replicate n (none : Option ℚ)).countP (fun o => o.isSome) = 0 := by
  induction n with
  | zero => rfl
  | succ m ih => simp [List.replicate_succ, List.countP_cons, ih]

/-- The padded array has exactly the expansion's entries present. -/
theorem paddedArray_countP_isSome (q : QuestionFreq) (numRows : ℕ) :
    (paddedArray q numRows).countP (fun o => o.isSome)
      = (expandCounts q.counts).length := by
  rw [paddedArray_eq, List.countP_append, countP_replicate_none, add_zero]
  rw [List.countP_map]
  simp [Function.comp_def]

/-- Length of the padded array when the expansion fits. -/
theorem paddedArray_length (q : QuestionFreq) (numRows : ℕ)
    (h : (expandCounts q.counts).length ≤ numRows) :
    (paddedArray q numRows).length = numRows := by
  rw [paddedArray_eq]
  simp only [List.length_append, List.length_replicate, List.length_map]
  omega

/-- Length of the expansion. -/
theorem expandCounts_length (counts : List (ℚ × ℚ)) :
    (expandCounts counts).length
      = (counts.map (fun p => (Int.ceil p.2).toNat)).sum := by
  induction counts with
  | nil => rfl
  | cons p t ih =>
    simp only [expandCounts, List.flatMap_cons, List.length_append,
      List.length_replicate, List.map_cons, List.sum_cons]
    congr 1

/-- The shuffled array of the `idx`-th question. -/
theorem shuffledArraysOf_get (questions : List QuestionFreq) (numRows : ℕ)
    (rand : ℕ → ℕ → ℕ) (idx : ℕ) (hidx : idx < questions.length)
    (hidx2 : idx < (shuffledArraysOf questions numRows rand).length) :
    (shuffledArraysOf questions numRows rand).get ⟨idx, hidx2⟩
      = fisherYates (rand idx) (paddedArray (questions.get ⟨idx, hidx⟩) numRows) := by
  simp [shuffledArraysOf, List.get_eq_getElem, List.getElem_enum]

/-- An element is at most the running maximum of a fold. -/
theorem le_foldl_max (l : List ℚ) :
    ∀ (a : ℚ), a ≤ l.foldl max a ∧ ∀ x ∈ l, x ≤ l.foldl max a := by
  induction l with
  | nil => intro a; exact ⟨le_refl a, by simp⟩
  | cons b t ih =>
    intro a
    rw [List.foldl_cons]
    refine ⟨le_trans (le_max_left a b) (ih (max a b)).1, ?_⟩
    intro x hx
    rcases List.mem_cons.mp hx with rfl | hx
    · exact le_trans (le_max_right a x) (ih (max a x)).1
    · exact (ih (max a b)).2 x hx

/-- Every question's total is at most `jsMaxTotal`. -/
theorem total_le_jsMaxTotal (questions : List QuestionFreq) :
    ∀ q ∈ questions, q.total ≤ jsMaxTotal questions := by
  intro q hq
  cases questions with
  | nil => simp at hq
  | cons q0 t =>
    rw [jsMaxTotal]
    rcases List.mem_cons.mp hq with rfl | hq
    · exact (le_foldl_max (t.map (fun q2 => q2.total)) q.total).1.trans_eq (by
        rw [List.foldl_map])
    · have hmem : q.total ∈ t.map (fun q2 => q2.total) :=
        List.mem_map_of_mem _ hq
      exact ((le_foldl_max (t.map (fun q2 => q2.total)) q0.total).2 _ hmem).trans_eq
        (by rw [List.foldl_map])

/-- The question list that `tryConvertFrequencyTable` scans (empty when no
label column is found). -/
def freqQuestionsFor (headers : List String) (rows : List Row) : List QuestionFreq :=
  match textColumnOf headers (rows.drop 1) with
  | none => []
  | some textColumn =>
    freqQuestionsOf (scoreHeadersOf headers) textColumn
      (numberColumnOf headers (scoreHeadersOf headers) textColumn (rows.drop 1))
      (avgColumnOf headers) (rows.drop 1)

/-- On acceptance, the output columns and rows are the reconstruction
pipeline applied to the scanned questions. -/
theorem tryConvert_some_rows (headers : List String) (rows : List Row)
    (rand : ℕ → ℕ → ℕ) (out : ParsedSurveyData)
    (hacc : tryConvertFrequencyTable headers rows rand = some out) :
    out.questionColumns = (freqQuestionsFor headers rows).map freqKey
    ∧ out.rows = pseudoRowsOf ((freqQuestionsFor headers rows).map freqKey)
        (shuffledArraysOf (freqQuestionsFor headers rows)
          (Int.ceil (jsMaxTotal (freqQuestionsFor headers rows))).toNat rand)
        (Int.ceil (jsMaxTotal (freqQuestionsFor headers rows))).toNat := by
  simp only [tryConvertFrequencyTable] at hacc
  split at hacc
  · exact absurd hacc (by simp)
  split at hacc
  · exact absurd hacc (by simp)
  split at hacc
  · exact absurd hacc (by simp)
  split at hacc
  · exact absurd hacc (by simp)
  next textColumn htc =>
    split at hacc
    · exact absurd hacc (by simp)
    rw [Option.some.injEq] at hacc
    subst hacc
    rw [freqQuestionsFor]
    rw [List.drop_one] at htc ⊢
    rw [htc]
    exact ⟨rfl, rfl⟩

/-- A question key never collides with the respondent-id column name. -/
theorem freqKey_ne_id (q : QuestionFreq) : freqKey q ≠ "回答者ID" := by
  rw [freqKey]
  intro h
  have hd := congrArg String.data h
  have h1 : ∀ s t : String, (s ++ t).data = s.data ++ t.data := fun s t => rfl
  rw [h1, h1, h1] at hd
  have h2 : ("Q" : String).data = ['Q'] := rfl
  have h3 : ("回答者ID" : String).data = ['回', '答', '者', 'I', 'D'] := rfl
  rw [h2, h3] at hd
  simp only [List.cons_append, List.append_assoc] at hd
  have := (List.cons.injEq _ _ _ _).mp hd
  exact absurd this.1 (by decide)

/-- Counting after wrapping each score in `Cell.num`. -/
theorem count_map_cellnum (s : ℚ) (l : List ℚ) :
    (l.map Cell.num).count (Cell.num s) = l.count s := by
  induction l with
  | nil => rfl
  | cons a t ih =>
    rw [List.map_cons, List.count_cons, List.count_cons, ih]
    by_cases ha : a = s
    · simp [ha]
    · have h1 : (Cell.num a == Cell.num s) = false := by
        rw [beq_eq_false_iff_ne]
        simp [ha]
      have h2 : (a == s) = false := by
        rw [beq_eq_false_iff_ne]
        exact ha
      rw [h1, h2]

/-- One shuffled array per question. -/
theorem shuffledArraysOf_length (questions : List QuestionFreq) (numRows : ℕ)
    (rand : ℕ → ℕ → ℕ) :
    (shuffledArraysOf questions numRows rand).length = questions.length := by
  simp [shuffledArraysOf]

/-- Natural count cells make the expansion's length equal the question total
(as a rational). -/
theorem sum_ceil_toNat_cast (l : List (ℚ × ℚ)) :
    (∀ p ∈ l, ∃ n : ℕ, p.2 = (n : ℚ)) →
    (((l.map (fun p => (Int.ceil p.2).toNat)).sum : ℕ) : ℚ)
      = (l.map (fun p => p.2)).sum := by
  induction l with
  | nil => intro _; simp
  | cons p t ih =>
    intro hnat
    obtain ⟨n, hn⟩ := hnat p (List.mem_cons_self p t)
    simp only [List.map_cons, List.sum_cons]
    rw [Nat.cast_add, ih (fun p2 hp2 => hnat p2 (List.mem_cons_of_mem p hp2))]
    congr 1
    rw [hn, Int.ceil_natCast]
    simp

theorem expandCounts_length_eq_total (q : QuestionFreq)
    (hnat : ∀ p ∈ q.counts, ∃ n : ℕ, p.2 = (n : ℚ))
    (htot : q.total = (q.counts.map (fun p => p.2)).sum) :
    (((expandCounts q.counts).length : ℕ) : ℚ) = q.total := by
  rw [expandCounts_length, htot]
  exact sum_ceil_toNat_cast q.counts hnat

/-- A fold step preserving a predicate preserves it over the whole fold. -/
theorem foldl_preserve {α β : Type} (f : β → α → β) (P : β → Prop)
    (hf : ∀ b a, P b → P (f b a)) :
    ∀ (l : List α) (b : β), P b → P (l.foldl f b) := by
  intro l
  induction l with
  | nil => intro b hb; exact hb
  | cons a t ih => intro b hb; exact ih (f b a) (hf b a hb)

/-- `Map.set` keeps the key list duplicate-free. -/
theorem mapSet_keys_nodup {κ ν : Type} [DecidableEq κ] (m : List (κ × ν))
    (k : κ) (v : ν) (h : (m.map (fun p => p.1)).Nodup) :
    ((mapSet m k v).map (fun p => p.1)).Nodup := by
  rw [mapSet]
  split
  · have hkeys : (m.map (fun p => if p.1 = k then (k, v) else p)).map (fun p => p.1)
        = m.map (fun p => p.1) := by
      rw [List.map_map]
      refine List.map_congr_left (fun p _ => ?_)
      simp only [Function.comp_apply]
      split
      · next hpk => exact hpk.symm
      · rfl
    rw [hkeys]
    exact h
  · next hany =>
    rw [List.map_append]
    simp only [List.map_cons, List.map_nil]
    rw [List.nodup_append]
    refine ⟨h, List.nodup_singleton k, ?_⟩
    intro a ha hb
    simp only [List.mem_singleton] at hb
    subst hb
    obtain ⟨p, hp, hpk⟩ := List.mem_map.mp ha
    exact hany (List.any_eq_true.mpr ⟨p, hp, by simp [hpk]⟩)

/-- The detected score headers have pairwise-distinct score values. -/
theorem scoreHeaders_keys_nodup (headers : List String) :
    ((scoreHeadersOf headers).map (fun p => p.1)).Nodup := by
  rw [scoreHeadersOf]
  refine foldl_preserve _
    (fun m : List (ℚ × String) => (m.map (fun p => p.1)).Nodup) ?_ headers []
    (by simp)
  intro m h hm
  cases parseNum h with
  | none => exact hm
  | some q =>
    simp only
    split
    · exact mapSet_keys_nodup m q h hm
    · exact hm

/-- Invariant of the frequency scan: every detected question's count keys are
the score-header values, and its total is the sum of its counts. -/
theorem freqQuestionsOf_inv (sh : List (ℚ × String)) (tc : String)
    (nc : Option String) (ac : Option String) (dataRows : List Row) :
    ∀ q ∈ freqQuestionsOf sh tc nc ac dataRows,
      q.counts.map (fun p => p.1) = sh.map (fun p => p.1)
      ∧ q.total = (q.counts.map (fun p => p.2)).sum := by
  rw [freqQuestionsOf]
  refine foldl_preserve _
    (fun acc : List QuestionFreq => ∀ q ∈ acc,
      q.counts.map (fun p => p.1) = sh.map (fun p => p.1)
      ∧ q.total = (q.counts.map (fun p => p.2)).sum) ?_ dataRows []
    (by intro q hq; simp at hq)
  intro acc row hacc
  simp only [freqStep]
  split
  · exact hacc
  · split
    · exact hacc
    · intro q hq
      rcases List.mem_append.mp hq with hq | hq
      · exact hacc q hq
      · simp only [List.mem_singleton] at hq
        subst hq
        constructor
        · simp [List.map_map, Function.comp_def]
        · rfl

/-- Same invariant for the scanned question list of an input table. -/
theorem freqQuestionsFor_inv (headers : List String) (rows : List Row) :
    ∀ q ∈ freqQuestionsFor headers rows,
      q.counts.map (fun p => p.1) = (scoreHeadersOf headers).map (fun p => p.1)
      ∧ q.total = (q.counts.map (fun p => p.2)).sum := by
  rw [freqQuestionsFor]
  cases htc : textColumnOf headers (rows.drop 1) with
  | none => intro q hq; simp at hq
  | some textColumn => exact freqQuestionsOf_inv _ _ _ _ _

/-- A list of naturals (as rationals) sums to a natural. -/
theorem sum_cast_nat (l : List ℚ) :
    (∀ x ∈ l, ∃ n : ℕ, x = (n : ℚ)) → ∃ n : ℕ, l.sum = (n : ℚ) := by
  induction l with
  | nil => intro _; exact ⟨0, by simp⟩
  | cons a t ih =>
    intro h
    obtain ⟨n, hn⟩ := h a (List.mem_cons_self a t)
    obtain ⟨m, hm⟩ := ih (fun x hx => h x (List.mem_cons_of_mem a hx))
    exact ⟨n + m, by rw [List.sum_cons, hn, hm]; push_cast; ring⟩

/-- A running maximum over natural totals stays natural. -/
theorem foldl_max_total_nat :
    ∀ (t : List QuestionFreq) (a : ℚ), (∃ n : ℕ, a = (n : ℚ)) →
    (∀ q ∈ t, ∃ n : ℕ, q.total = (n : ℚ)) →
    ∃ n : ℕ, t.foldl (fun m q2 => max m q2.total) a = (n : ℚ) := by
  intro t
  induction t with
  | nil => intro a ha _; exact ha
  | cons q t ih =>
    intro a ha hq
    obtain ⟨n, hn⟩ := ha
    obtain ⟨m, hm⟩ := hq q (List.mem_cons_self q t)
    refine ih (max a q.total) ⟨max n m, ?_⟩
      (fun q2 hq2 => hq q2 (List.mem_cons_of_mem q hq2))
    rw [hn, hm, Nat.cast_max]

/-- When every question total is natural, so is the global maximum. -/
theorem jsMaxTotal_nat (questions : List QuestionFreq)
    (h : ∀ q ∈ questions, ∃ n : ℕ, q.total = (n : ℚ)) :
    ∃ n : ℕ, jsMaxTotal questions = (n : ℚ) := by
  cases questions with
  | nil => exact ⟨0, by simp [jsMaxTotal]⟩
  | cons q t =>
    rw [jsMaxTotal]
    exact foldl_max_total_nat t q.total (h q (List.mem_cons_self q t))
      (fun q2 hq2 => h q2 (List.mem_cons_of_mem q hq2))

/-- Permutations preserve occurrence counts, for any Boolean equality. -/
theorem perm_count_beq {α : Type} [BEq α] {l1 l2 : List α} (h : l1.Perm l2)
    (a : α) : l1.count a = l2.count a := by
  induction h with
  | nil => rfl
  | cons x h ih => rw [List.count_cons, List.count_cons, ih]
  | swap x y l =>
    simp only [List.count_cons]
    omega
  | trans h1 h2 ih1 ih2 => rw [ih1, ih2]

/-- C6 (amended): for an accepted frequency table whose count cells are all
natural numbers and whose detected question keys are pairwise distinct, the
reconstruction preserves counts for every shuffle outcome: the number of
pseudo-respondent rows equals the maximum per-question total; each question's
column holds each score exactly as many times as that question's count cell
states; and the column has exactly `total` present entries, the remaining rows
lacking the key entirely. -/
theorem c6_reconstruction_preserves_counts (headers : List String)
    (rows : List Row) (rand : ℕ → ℕ → ℕ) (out : ParsedSurveyData)
    (hacc : tryConvertFrequencyTable headers rows rand = some out)
    (hnat : ∀ q ∈ freqQuestionsFor headers rows, ∀ p ∈ q.counts,
      ∃ n : ℕ, p.2 = (n : ℚ))
    (hkeys : ((freqQuestionsFor headers rows).map freqKey).Nodup) :
    (out.rows.length : ℚ) = jsMaxTotal (freqQuestionsFor headers rows)
    ∧ ∀ q ∈ freqQuestionsFor headers rows,
        (∀ p ∈ q.counts,
          ((out.rows.filterMap (fun row => row.lookup (freqKey q))).count
              (Cell.num p.1) : ℚ) = p.2)
        ∧ ((out.rows.countP
              (fun row => (row.lookup (freqKey q)).isSome)) : ℚ) = q.total := by
  obtain ⟨hcols, hrows⟩ := tryConvert_some_rows headers rows rand out hacc
  have hinv := freqQuestionsFor_inv headers rows
  have hTot := total_le_jsMaxTotal (freqQuestionsFor headers rows)
  set Q := freqQuestionsFor headers rows with hQdef
  have htotnat : ∀ q ∈ Q, ∃ n : ℕ, q.total = (n : ℚ) := by
    intro q hq
    obtain ⟨hk, ht⟩ := hinv q hq
    obtain ⟨n, hn⟩ := sum_cast_nat (q.counts.map (fun p => p.2)) (by
      intro x hx
      obtain ⟨p, hp, hpx⟩ := List.mem_map.mp hx
      obtain ⟨m, hm⟩ := hnat q hq p hp
      exact ⟨m, hpx ▸ hm⟩)
    exact ⟨n, ht.trans hn⟩
  obtain ⟨N, hN⟩ := jsMaxTotal_nat Q htotnat
  set nR := (Int.ceil (jsMaxTotal Q)).toNat with hnRdef
  have hnum : nR = N := by
    rw [hnRdef, hN, Int.ceil_natCast]
    simp
  set K := Q.map freqKey with hKdef
  set A := shuffledArraysOf Q nR rand with hAdef
  have hlenout : out.rows.length = nR := by
    rw [hrows]
    simp [pseudoRowsOf]
  refine ⟨by rw [hlenout, hnum, hN], ?_⟩
  intro q hqmem
  obtain ⟨⟨idx, hidx⟩, hq⟩ := List.mem_iff_get.mp hqmem
  have hidx' : idx < K.length := by
    rw [hKdef, List.length_map]
    exact hidx
  have hkey : K.get ⟨idx, hidx'⟩ = freqKey q := by
    rw [← hq]
    simp [hKdef, List.get_eq_getElem, List.getElem_map]
  have hlenk : K.length ≤ A.length := by
    rw [hKdef, hAdef, shuffledArraysOf_length, List.length_map]
  have harrget : A.get ⟨idx, lt_of_lt_of_le hidx' hlenk⟩
      = fisherYates (rand idx) (paddedArray q nR) := by
    have h2 : idx < A.length := lt_of_lt_of_le hidx' hlenk
    rw [hAdef] at h2
    have h3 := shuffledArraysOf_get Q nR rand idx hidx h2
    rw [hq] at h3
    exact h3
  have hexp : ((expandCounts q.counts).length : ℚ) = q.total :=
    expandCounts_length_eq_total q (hnat q hqmem) (hinv q hqmem).2
  have hexple : (expandCounts q.counts).length ≤ nR := by
    rw [hnum]
    have h1 := hTot q hqmem
    rw [hN, ← hexp] at h1
    exact_mod_cast h1
  have harr : (A.get ⟨idx, lt_of_lt_of_le hidx' hlenk⟩).length = nR := by
    rw [harrget, (fisherYates_perm (rand idx) (paddedArray q nR)).length_eq]
    exact paddedArray_length q nR hexple
  have hid : K.get ⟨idx, hidx'⟩ ≠ "回答者ID" := by
    rw [hkey]
    exact freqKey_ne_id q
  have hKnodup : K.Nodup := hkeys
  have hcnodup : (q.counts.map (fun p => p.1)).Nodup := by
    rw [(hinv q hqmem).1]
    exact scoreHeaders_keys_nodup headers
  constructor
  · intro p hp
    obtain ⟨n, hn⟩ := hnat q hqmem p hp
    rw [hrows, ← hkey,
      pseudoRows_column K A nR idx hidx' hlenk hKnodup hid harr,
      count_map_cellnum, count_reduceOption, harrget,
      perm_count_beq (fisherYates_perm (rand idx) (paddedArray q nR)),
      paddedArray_count_some,
      count_expandCounts p.1 p.2 q.counts hcnodup (by rw [Prod.mk.eta]; exact hp),
      hn, Int.ceil_natCast]
    simp
  · rw [hrows, ← hkey,
      pseudoRows_column_isSome K A nR idx hidx' hlenk hKnodup hid harr,
      ← countP_isSome_eq_length_reduceOption, harrget,
      (fisherYates_perm (rand idx) (paddedArray q nR)).countP_eq,
      paddedArray_countP_isSome]
    exact hexp

/-- Witness frequency table: headers of a label column and three score
columns. -/
def c6wHeaders : List String := ["質問", "1", "2", "3"]

/-- Witness label row (string cells in the score columns). -/
def c6wRow0 : Row :=
  [("質問", Cell.str "内容説明"), ("1", Cell.str "低い"),
   ("2", Cell.str "普通"), ("3", Cell.str "高い")]

/-- Witness question row: natural count cells 2, 1, 0. -/
def c6wRow1 : Row :=
  [("質問", Cell.str "ABCDEFG"), ("1", Cell.num 2), ("2", Cell.num 1),
   ("3", Cell.num 0)]

/-- Trailing row skipped by the scan (empty label). -/
def c6wRow2 : Row := [("質問", Cell.str "")]

/-- Witness input rows. -/
def c6wRows : List Row := [c6wRow0, c6wRow1, c6wRow2]

/-- A fixed random stream (every draw is 0). -/
def c6wRand : ℕ → ℕ → ℕ := fun _ _ => 0

/-- The single question detected in the witness table. -/
def c6wQ : QuestionFreq :=
  { number := 1, text := "ABCDEFG", counts := [(1, 2), (2, 1), (3, 0)],
    total := 3, weightedAvg := none }

/-- The reconstruction of the witness table under `c6wRand`. -/
def c6wOut : ParsedSurveyData :=
  { headers := ["回答者ID", "Q1_ABCDEFG"], respondentIdColumn := "回答者ID",
    departmentColumn := "", questionColumns := ["Q1_ABCDEFG"],
    rows := [[("回答者ID", Cell.str "001"), ("Q1_ABCDEFG", Cell.num 1)],
             [("回答者ID", Cell.str "002"), ("Q1_ABCDEFG", Cell.num 2)],
             [("回答者ID", Cell.str "003"), ("Q1_ABCDEFG", Cell.num 1)]] }

/-- The label header is not numeric. -/
theorem parseNum_label_none : parseNum "質問" = none := rfl

/-- Evaluation of `Number("1")`. -/
theorem parseNum_one : parseNum "1" = some 1 := by
  have h : parseNum "1" = some ((1 : ℚ) * ((1 : ℕ) : ℚ)) := rfl
  rw [h]
  norm_num

/-- Evaluation of `Number("2")`. -/
theorem parseNum_two : parseNum "2" = some 2 := by
  have h : parseNum "2" = some ((1 : ℚ) * ((2 : ℕ) : ℚ)) := rfl
  rw [h]
  norm_num

/-- Evaluation of `Number("3")`. -/
theorem parseNum_three : parseNum "3" = some 3 := by
  have h : parseNum "3" = some ((1 : ℚ) * ((3 : ℕ) : ℚ)) := rfl
  rw [h]
  norm_num

/-- Score-header detection on the sample headers. -/
theorem c6_scoreHeaders :
    scoreHeadersOf c6wHeaders = [(1, "1"), (2, "2"), (3, "3")] := by
  rw [c6wHeaders, scoreHeadersOf]
  simp only [List.foldl_cons, List.foldl_nil]
  rw [parseNum_label_none, parseNum_one, parseNum_two, parseNum_three]
  norm_num [mapSet]

/-- Label-column detection on the witness rows. -/
theorem c6w_textCol : textColumnOf c6wHeaders (c6wRows.drop 1) = some "質問" := rfl

/-- No number column in the witness table. -/
theorem c6w_numberCol :
    numberColumnOf c6wHeaders [(1, "1"), (2, "2"), (3, "3")] "質問"
      (c6wRows.drop 1) = none := rfl

/-- No weighted-average column in the sample headers. -/
theorem c6_avgCol : avgColumnOf c6wHeaders = none := rfl

/-- The scan finds exactly the witness question. -/
theorem c6w_freqQuestions :
    freqQuestionsOf [(1, "1"), (2, "2"), (3, "3")] "質問" none none
      (c6wRows.drop 1) = [c6wQ] := by
  rw [freqQuestionsOf]
  have hdrop : c6wRows.drop 1 = [c6wRow1, c6wRow2] := rfl
  rw [hdrop]
  simp only [List.foldl_cons, List.foldl_nil]
  have hstep2 : ∀ qs, freqStep [(1, "1"), (2, "2"), (3, "3")] "質問" none none
      qs c6wRow2 = qs := fun qs => rfl
  rw [hstep2]
  simp only [freqStep]
  have ht : trimStr (cellTextOrEmpty (List.lookup "質問" c6wRow1)) = "ABCDEFG" := rfl
  have hc : List.map (fun sh => (sh.1, (toNum (List.lookup sh.2 c6wRow1)).getD 0))
      [((1 : ℚ), "1"), (2, "2"), (3, "3")]
      = [((1 : ℚ), (2 : ℚ)), (2, 1), (3, 0)] := rfl
  rw [ht, hc]
  norm_num [c6wQ]
  decide

/-- The scanned question list of the witness table. -/
theorem c6w_freqFor : freqQuestionsFor c6wHeaders c6wRows = [c6wQ] := by
  rw [freqQuestionsFor, c6_scoreHeaders, c6w_textCol]
  simp only [c6w_numberCol, c6_avgCol]
  exact c6w_freqQuestions

/-- Rendering of the number 1 in the question key. -/
theorem ratToStr_one : ratToStr (1 : ℚ) = "1" := by
  rw [ratToStr, if_pos Rat.den_one, Rat.num_one]
  rfl

/-- The witness question's column key. -/
theorem c6w_key : freqKey c6wQ = "Q1_ABCDEFG" := by
  rw [freqKey, show c6wQ.number = 1 from rfl, ratToStr_one]
  rfl

/-- Maximum total of the witness table. -/
theorem c6w_maxTotal : jsMaxTotal [c6wQ] = 3 := rfl

/-- Pseudo-row count of the witness table. -/
theorem c6w_numRows : (Int.ceil (jsMaxTotal [c6wQ])).toNat = 3 := by
  rw [c6w_maxTotal]
  norm_num
  rfl

/-- Expansion of the witness counts into the score multiset. -/
theorem c6w_expand : expandCounts c6wQ.counts = [1, 1, 2] := by
  have h2 : (Int.ceil (2 : ℚ)).toNat = 2 := by norm_num; rfl
  have h1 : (Int.ceil (1 : ℚ)).toNat = 1 := by norm_num
  have h0 : (Int.ceil (0 : ℚ)).toNat = 0 := by norm_num
  rw [show c6wQ.counts = [((1 : ℚ), (2 : ℚ)), (2, 1), (3, 0)] from rfl,
    expandCounts]
  simp [h2, h1, h0, List.replicate]

/-- Padded score array of the witness question (no padding needed). -/
theorem c6w_padded : paddedArray c6wQ 3 = [some 1, some 1, some 2] := by
  rw [paddedArray_eq, c6w_expand]
  simp

/-- The shuffle outcome under the all-zero random stream. -/
theorem c6w_fisher : fisherYates (c6wRand 0) [some (1 : ℚ), some 1, some 2]
    = [some 1, some 2, some 1] := rfl

/-- The witness table's shuffled arrays. -/
theorem c6w_arrays : shuffledArraysOf [c6wQ] 3 c6wRand
    = [[some 1, some 2, some 1]] := by
  rw [shuffledArraysOf, show ([c6wQ].enum) = [(0, c6wQ)] from rfl]
  simp only [List.map_cons, List.map_nil]
  rw [c6w_padded, c6w_fisher]

/-- The witness table's pseudo-respondent rows. -/
theorem c6w_pseudo : pseudoRowsOf ["Q1_ABCDEFG"] [[some (1 : ℚ), some 2, some 1]] 3
    = c6wOut.rows := rfl

/-- The witness table is accepted and reconstructs to `c6wOut`. -/
theorem c6w_accepted : tryConvertFrequencyTable c6wHeaders c6wRows c6wRand
    = some c6wOut := by
  simp only [tryConvertFrequencyTable]
  rw [c6_scoreHeaders]
  rw [if_neg (by decide : ¬c6wRows.length < 3)]
  rw [if_neg (by decide : ¬([((1 : ℚ), "1"), (2, "2"), (3, "3")].length < 3))]
  have hfil : List.filter (fun h =>
      match List.lookup h (c6wRows.headD []) with
      | some (Cell.str s) => decide (1 < s.length)
      | _ => false)
      (List.map (fun p => p.2) [((1 : ℚ), "1"), (2, "2"), (3, "3")])
      = ["1", "2", "3"] := rfl
  rw [hfil]
  rw [if_neg (by norm_num : ¬((["1", "2", "3"].length : ℚ)
    < ([((1 : ℚ), "1"), (2, "2"), (3, "3")].length : ℚ) / 2))]
  rw [c6w_textCol]
  simp only [c6w_numberCol, c6_avgCol, c6w_freqQuestions]
  rw [if_neg (by simp : ¬([c6wQ].length = 0))]
  simp only [List.map_cons, List.map_nil]
  rw [c6w_key, c6w_numRows, c6w_arrays, c6w_pseudo]
  rfl

/-- C6 witness: the amended reconstruction theorem applied to the concrete
witness table. -/
theorem c6_reconstruction_preserves_counts_witness :
    tryConvertFrequencyTable c6wHeaders c6wRows c6wRand = some c6wOut
    ∧ ((c6wOut.rows.length : ℚ) = jsMaxTotal (freqQuestionsFor c6wHeaders c6wRows)
       ∧ ∀ q ∈ freqQuestionsFor c6wHeaders c6wRows,
          (∀ p ∈ q.counts,
            ((c6wOut.rows.filterMap (fun row => row.lookup (freqKey q))).count
                (Cell.num p.1) : ℚ) = p.2)
          ∧ ((c6wOut.rows.countP
                (fun row => (row.lookup (freqKey q)).isSome)) : ℚ) = q.total) := by
  refine ⟨c6w_accepted, c6_reconstruction_preserves_counts c6wHeaders c6wRows
    c6wRand c6wOut c6w_accepted ?_ ?_⟩
  · rw [c6w_freqFor]
    intro q hq p hp
    simp only [List.mem_singleton] at hq
    subst hq
    rw [show c6wQ.counts = [((1 : ℚ), (2 : ℚ)), (2, 1), (3, 0)] from rfl] at hp
    simp only [List.mem_cons, List.not_mem_nil, or_false] at hp
    rcases hp with rfl | rfl | rfl
    · exact ⟨2, by norm_num⟩
    · exact ⟨1, by norm_num⟩
    · exact ⟨0, by norm_num⟩
  · rw [c6w_freqFor]
    simp

/-- Counterexample question row: the score-1 count cell is the fraction
`0.5`. -/
def c6xRow1 : Row :=
  [("質問", Cell.str "ABCDEFG"), ("1", Cell.num (1/2)), ("2", Cell.num 1),
   ("3", Cell.num 0)]

/-- Counterexample input rows. -/
def c6xRows : List Row := [c6wRow0, c6xRow1, c6wRow2]

/-- The single question detected in the counterexample table. -/
def c6xQ : QuestionFreq :=
  { number := 1, text := "ABCDEFG", counts := [(1, 1/2), (2, 1), (3, 0)],
    total := 3/2, weightedAvg := none }

/-- The reconstruction of the counterexample table under `c6wRand`. -/
def c6xOut : ParsedSurveyData :=
  { headers := ["回答者ID", "Q1_ABCDEFG"], respondentIdColumn := "回答者ID",
    departmentColumn := "", questionColumns := ["Q1_ABCDEFG"],
    rows := [[("回答者ID", Cell.str "001"), ("Q1_ABCDEFG", Cell.num 2)],
             [("回答者ID", Cell.str "002"), ("Q1_ABCDEFG", Cell.num 1)]] }

/-- Label-column detection on the counterexample rows. -/
theorem c6x_textCol : textColumnOf c6wHeaders (c6xRows.drop 1) = some "質問" := rfl

/-- No number column in the counterexample table. -/
theorem c6x_numberCol :
    numberColumnOf c6wHeaders [(1, "1"), (2, "2"), (3, "3")] "質問"
      (c6xRows.drop 1) = none := rfl

/-- The scan finds exactly the counterexample question. -/
theorem c6x_freqQuestions :
    freqQuestionsOf [(1, "1"), (2, "2"), (3, "3")] "質問" none none
      (c6xRows.drop 1) = [c6xQ] := by
  rw [freqQuestionsOf]
  have hdrop : c6xRows.drop 1 = [c6xRow1, c6wRow2] := rfl
  rw [hdrop]
  simp only [List.foldl_cons, List.foldl_nil]
  have hstep2 : ∀ qs, freqStep [(1, "1"), (2, "2"), (3, "3")] "質問" none none
      qs c6wRow2 = qs := fun qs => rfl
  rw [hstep2]
  simp only [freqStep]
  have ht : trimStr (cellTextOrEmpty (List.lookup "質問" c6xRow1)) = "ABCDEFG" := rfl
  have hc : List.map (fun sh => (sh.1, (toNum (List.lookup sh.2 c6xRow1)).getD 0))
      [((1 : ℚ), "1"), (2, "2"), (3, "3")]
      = [((1 : ℚ), (1/2 : ℚ)), (2, 1), (3, 0)] := rfl
  rw [ht, hc]
  norm_num [c6xQ]
  decide

/-- The scanned question list of the counterexample table. -/
theorem c6x_freqFor : freqQuestionsFor c6wHeaders c6xRows = [c6xQ] := by
  rw [freqQuestionsFor, c6_scoreHeaders, c6x_textCol]
  simp only [c6x_numberCol, c6_avgCol]
  exact c6x_freqQuestions

/-- The counterexample question's column key. -/
theorem c6x_key : freqKey c6xQ = "Q1_ABCDEFG" := by
  rw [freqKey, show c6xQ.number = 1 from rfl, ratToStr_one]
  rfl

/-- Maximum total of the counterexample table: the fraction `1.5`. -/
theorem c6x_maxTotal : jsMaxTotal [c6xQ] = 3/2 := rfl

/-- Pseudo-row count of the counterexample table: `Math.ceil(1.5) = 2`. -/
theorem c6x_numRows : (Int.ceil (jsMaxTotal [c6xQ])).toNat = 2 := by
  rw [c6x_maxTotal]
  rw [show (⌈(3/2 : ℚ)⌉ : ℤ) = 2 by rw [Int.ceil_eq_iff]; norm_num]
  rfl

/-- Expansion of the counterexample counts: the `0.5` cell yields one
occurrence of score 1. -/
theorem c6x_expand : expandCounts c6xQ.counts = [1, 2] := by
  have hh : (Int.ceil ((2 : ℚ)⁻¹)).toNat = 1 := by
    rw [show (⌈((2 : ℚ)⁻¹)⌉ : ℤ) = 1 by rw [Int.ceil_eq_iff]; norm_num]
    rfl
  have h1 : (Int.ceil (1 : ℚ)).toNat = 1 := by norm_num
  have h0 : (Int.ceil (0 : ℚ)).toNat = 0 := by norm_num
  rw [show c6xQ.counts = [((1 : ℚ), (1/2 : ℚ)), (2, 1), (3, 0)] from rfl,
    expandCounts]
  simp [hh, h1, h0, List.replicate]

/-- Padded score array of the counterexample question. -/
theorem c6x_padded : paddedArray c6xQ 2 = [some 1, some 2] := by
  rw [paddedArray_eq, c6x_expand]
  simp

/-- The shuffle outcome under the all-zero random stream. -/
theorem c6x_fisher : fisherYates (c6wRand 0) [some (1 : ℚ), some 2]
    = [some 2, some 1] := rfl

/-- The counterexample table's shuffled arrays. -/
theorem c6x_arrays : shuffledArraysOf [c6xQ] 2 c6wRand
    = [[some 2, some 1]] := by
  rw [shuffledArraysOf, show ([c6xQ].enum) = [(0, c6xQ)] from rfl]
  simp only [List.map_cons, List.map_nil]
  rw [c6x_padded, c6x_fisher]

/-- The counterexample table's pseudo-respondent rows. -/
theorem c6x_pseudo : pseudoRowsOf ["Q1_ABCDEFG"] [[some (2 : ℚ), some 1]] 2
    = c6xOut.rows := rfl

/-- The counterexample table is accepted and reconstructs to `c6xOut`. -/
theorem c6x_accepted : tryConvertFrequencyTable c6wHeaders c6xRows c6wRand
    = some c6xOut := by
  simp only [tryConvertFrequencyTable]
  rw [c6_scoreHeaders]
  rw [if_neg (by decide : ¬c6xRows.length < 3)]
  rw [if_neg (by decide : ¬([((1 : ℚ), "1"), (2, "2"), (3, "3")].length < 3))]
  have hfil : List.filter (fun h =>
      match List.lookup h (c6xRows.headD []) with
      | some (Cell.str s) => decide (1 < s.length)
      | _ => false)
      (List.map (fun p => p.2) [((1 : ℚ), "1"), (2, "2"), (3, "3")])
      = ["1", "2", "3"] := rfl
  rw [hfil]
  rw [if_neg (by norm_num : ¬((["1", "2", "3"].length : ℚ)
    < ([((1 : ℚ), "1"), (2, "2"), (3, "3")].length : ℚ) / 2))]
  rw [c6x_textCol]
  simp only [c6x_numberCol, c6_avgCol, c6x_freqQuestions]
  rw [if_neg (by simp : ¬([c6xQ].length = 0))]
  simp only [List.map_cons, List.map_nil]
  rw [c6x_key, c6x_numRows, c6x_arrays, c6x_pseudo]
  rfl

/-- C6 counterexample: a table whose score-1 count cell holds the fraction
`0.5` is accepted, yet the reconstructed pseudo rows contain score 1 once
rather than `0.5` times, and the pseudo-row count (2) differs from the
maximum per-question total (`1.5`). -/
theorem c6_counterexample :
    tryConvertFrequencyTable c6wHeaders c6xRows c6wRand = some c6xOut
    ∧ freqQuestionsFor c6wHeaders c6xRows = [c6xQ]
    ∧ ((1 : ℚ), (1/2 : ℚ)) ∈ c6xQ.counts
    ∧ ((c6xOut.rows.filterMap (fun row => row.lookup (freqKey c6xQ))).count
        (Cell.num 1) : ℚ) ≠ 1/2
    ∧ (c6xOut.rows.length : ℚ) ≠ jsMaxTotal (freqQuestionsFor c6wHeaders c6xRows) := by
  refine ⟨c6x_accepted, c6x_freqFor, by simp [c6xQ], ?_, ?_⟩
  · have hcol : c6xOut.rows.filterMap (fun row => row.lookup (freqKey c6xQ))
        = [Cell.num 2, Cell.num 1] := by
      rw [c6x_key]
      rfl
    rw [hcol]
    norm_num [List.count_cons, List.count_nil, beq_iff_eq]
  · rw [c6x_freqFor, c6x_maxTotal, show c6xOut.rows.length = 2 from rfl]
    norm_num
